import Mathlib

/-!
# Verification development for the `liaw2019-process` examples

The repository holds the example programs of a proposed child-process library
(`src/example/*.cpp`).  The programs are embedded below as Lean functions over an
explicit machine state; the library they call (`std::process`, `std::environment`,
`std::ipstream`, the launcher and the executor) has no source in the repository and
is modelled from the specification, each such definition saying so in its comment.
-/

set_option autoImplicit false

namespace liaw

/-! ## Strings and characters -/

/-- A `std::string`: a finite sequence of characters. -/
abbrev std_string := List Char

/-- The C library function `std::toupper` in the default "C" locale (the examples never
call `setlocale`): the letters a-z (codes 97..122) are mapped to A-Z (codes 65..90) and
every other character is returned unchanged. -/
def toupper (c : Char) : Char :=
  if 97 ≤ c.toNat ∧ c.toNat ≤ 122 then Char.ofNat (c.toNat - 32) else c

/-- The range-for loop of `to_upper` in `env.cpp` (lines 11-12): every character of
`res` is overwritten, front to back, by its `std::toupper` image. -/
def to_upper_loop : std_string → std_string
  | [] => []
  | c :: rest => toupper c :: to_upper_loop rest

/-- The function `to_upper` of `env.cpp` (lines 7-15): `res` is a copy of `str`, the loop
rewrites it in place, and `res` is returned. -/
def to_upper (str : std_string) : std_string :=
  let res := str
  to_upper_loop res

/-- The predicate of the `find_if` call in `env.cpp` line 24:
`to_upper<std::string>(val) == "PATH"`. -/
def is_path_key (val : std_string) : Bool :=
  to_upper val == "PATH".toList

/-- Specification side of the case comparison: `c` is an ASCII letter. -/
def is_ascii_letter (c : Char) : Prop :=
  (65 ≤ c.toNat ∧ c.toNat ≤ 90) ∨ (97 ≤ c.toNat ∧ c.toNat ≤ 122)

/-- Specification side of the case comparison: two characters are equal up to ASCII
letter case when they are the same character, or are both ASCII letters whose codes
differ by exactly 32 (the distance between the two cases of one letter). -/
def char_eq_upto_case (c d : Char) : Prop :=
  c = d ∨ (is_ascii_letter c ∧ is_ascii_letter d ∧
    (c.toNat + 32 = d.toNat ∨ d.toNat + 32 = c.toNat))

/-- Specification side of the case comparison: two strings are equal up to ASCII letter
case when they have the same length and agree position by position up to case. -/
def eq_upto_ascii_case (s t : std_string) : Prop :=
  List.Forall₂ char_eq_upto_case s t

/-! ## The Windows example: launch parameters and the two pre-setup hooks -/

/-- The `STARTUPINFO` structure of `windows.h`, field by field in declaration order.
Integer and pointer fields are represented by their numeric value. -/
structure STARTUPINFO where
  cb : Nat
  lpReserved : Nat
  lpDesktop : Nat
  lpTitle : Nat
  dwX : Nat
  dwY : Nat
  dwXSize : Nat
  dwYSize : Nat
  dwXCountChars : Nat
  dwYCountChars : Nat
  dwFillAttribute : Nat
  dwFlags : Nat
  wShowWindow : Nat
  cbReserved2 : Nat
  lpReserved2 : Nat
  hStdInput : Nat
  hStdOutput : Nat
  hStdError : Nat
deriving DecidableEq

/-- The constant `STARTF_RUNFULLSCREEN` of `windows.h` (`0x00000020`). -/
def STARTF_RUNFULLSCREEN : Nat := 0x20

/-- The constant `STARTF_USESHOWWINDOW` of `windows.h` (`0x00000001`), used below only as
an example of a flag that may already be set when a hook runs. -/
def STARTF_USESHOWWINDOW : Nat := 0x1

/-- Modelled from the spec: the launcher type `Launcher` handed to the hooks is not in the
repository.  It carries the platform-native launch parameters of section 4.4 step 3; the
hooks of `windows.cpp` reach only `startup_info`, and everything else the launcher holds
is kept in `rest`, of an arbitrary type. -/
structure Launcher (ρ : Type) where
  startup_info : STARTUPINFO
  rest : ρ

namespace start_fullscreeen

/-- The hook `start_fullscreeen::on_setup` of `windows.cpp` lines 11-15:
`l.startup_info.wShowWindow = SHOW_WINDOW;`.  The name `SHOW_WINDOW` is declared nowhere
in the repository (the source marks it implementation defined); it is a parameter, a
value of the type of the field it is assigned to. -/
def on_setup {ρ : Type} (SHOW_WINDOW : Nat) (l : Launcher ρ) : Launcher ρ :=
  { l with startup_info := { l.startup_info with wShowWindow := SHOW_WINDOW } }

end start_fullscreeen

namespace show_window

/-- The hook `show_window::on_setup` of `windows.cpp` lines 20-24:
`l.startup_info.dwFlags = STARTF_RUNFULLSCREEN;`. -/
def on_setup {ρ : Type} (l : Launcher ρ) : Launcher ρ :=
  { l with startup_info := { l.startup_info with dwFlags := STARTF_RUNFULLSCREEN } }

end show_window

/-- All fields of a `STARTUPINFO` other than `dwFlags` and `wShowWindow`, as one tuple;
used to say that a hook leaves them alone. -/
def STARTUPINFO.others (s : STARTUPINFO) : List Nat :=
  [s.cb, s.lpReserved, s.lpDesktop, s.lpTitle, s.dwX, s.dwY, s.dwXSize, s.dwYSize,
   s.dwXCountChars, s.dwYCountChars, s.dwFillAttribute, s.cbReserved2, s.lpReserved2,
   s.hStdInput, s.hStdOutput, s.hStdError]

/-! ## Environment model (specification section 4.1) -/

/-- Modelled from the spec: the value of an environment variable.  The storage
representation of a value is outside the library's scope (section 1); the examples use a
value only through `as_vector()`, so a value is represented by the list of entries that
`as_vector()` yields. -/
structure env_value where
  entries : List std_string
deriving DecidableEq

/-- Modelled from the spec: `value.as_vector()`, used in `env.cpp` line 27. -/
def env_value.as_vector (v : env_value) : List std_string := v.entries

/-- Modelled from the spec: the Environment Snapshot of section 3, "mapping from variable
name to value", kept as an association list whose order is the platform-defined order of
`keys()`.  Names are compared exactly (the POSIX-shaped rule). -/
structure environment where
  vars : List (std_string × env_value)
deriving DecidableEq

/-- Modelled from the spec: `keys()` of section 4.1, the finite sequence of variable
names. -/
def environment.keys (e : environment) : List std_string := e.vars.map Prod.fst

/-- Modelled from the spec: `get(name)` of section 4.1, "returns the value or signals
Not-Found"; `none` is the Not-Found outcome. -/
def environment.get (e : environment) (name : std_string) : Option env_value :=
  e.vars.lookup name

/-- Replacement of the first binding of `name` in an association list, or a new binding
at the end when there is none. -/
def set_binding (name : std_string) (v : env_value) :
    List (std_string × env_value) → List (std_string × env_value)
  | [] => [(name, v)]
  | (k, x) :: rest =>
    if k = name then (name, v) :: rest else (k, x) :: set_binding name v rest

/-- Modelled from the spec: `set(name, value)` of section 4.1, "in-place mutation semantics
scoped to a single owned snapshot": the updated snapshot is returned and replaces the
caller's local variable; no other snapshot is touched. -/
def environment.set (e : environment) (name : std_string) (paths : List std_string) :
    environment :=
  { vars := set_binding name ⟨paths⟩ e.vars }

/-- The algorithm `std::find_if` over a sequence, with an iterator represented by its
position: the result is the position of the first element satisfying `pred`, or the
length of the sequence, which is the end iterator, when no element does. -/
def find_if {α : Type} (pred : α → Bool) : List α → Nat
  | [] => 0
  | x :: xs => if pred x then 0 else find_if pred xs + 1

/-! ## The operating system and the machine state -/

/-- How a child process ends: it exits with a status, never exits, or has exited but
cannot be reaped (the Observation Error of section 4.5). -/
inductive fate where
  | exits (code : Int)
  | hangs
  | unreapable (errno : Nat)
deriving DecidableEq

/-- What a launched child does: the bytes it writes to its standard output, and how it
ends. -/
structure child_behaviour where
  output : std_string
  fate : fate
deriving DecidableEq

/-- The parameters a child was created with (section 4.4 step 3): resolved executable,
argument vector, environment block, working directory, root directory in force when the
target binary starts, the Windows startup structure, and whether standard output is bound
to a pipe. -/
structure spawn_record where
  exe : std_string
  argv : List std_string
  env : environment
  cwd : std_string
  root : std_string
  startup_info : STARTUPINFO
  stdout_piped : Bool
deriving DecidableEq

/-- An entry of the operating system's process table for a child of this program. -/
structure child where
  record : spawn_record
  reaped : Bool
deriving DecidableEq

/-- The parts of the operating system the program cannot change: which paths are
executable files, which are directories, for which directories `::chroot` succeeds in a
child, for which executables process creation fails (with which error number), and what
a child created with given parameters does. -/
structure world where
  executable : std_string → Bool
  directory : std_string → Bool
  may_chroot : std_string → Bool
  spawn_errno : std_string → Option Nat
  behaviour : spawn_record → child_behaviour

/-- The state the program runs on: its own environment block, its working directory, the
process table of its children (a child's identifier is its position in the table), and
the lines written so far to standard output and standard error. -/
structure machine where
  environ : environment
  cwd : std_string
  children : List child
  out : List std_string
  err : List std_string
deriving DecidableEq

/-- The kinds of failure of process construction (section 7 (a)-(c)). -/
inductive error_kind where
  | resolution
  | launch
  | extension
deriving DecidableEq

/-- Modelled from the spec: the Launch Error of section 3, "carrying the attempted
executable path and the underlying OS error code"; `path` is what `pe.path()` returns in
`error_handling.cpp`. -/
structure process_error where
  kind : error_kind
  path : std_string
  code : Nat
deriving DecidableEq

/-- The ways a program leaves the normal path: the Environment Model's Not-Found, a
failed construction, an Observation Error, the precondition violation of `exit_code()`,
use of an end iterator as if it referred to an element (undefined behaviour in C++), a
call that never returns, and an exhausted iteration bound of the model. -/
inductive failure where
  | not_found
  | launch_error (pe : process_error)
  | observation_error (errno : Nat)
  | precondition_violation
  | end_iterator_used
  | no_return
  | out_of_fuel
deriving DecidableEq

/-- The error number `ENOENT`. -/
def ENOENT : Nat := 2

/-- The error number `ECHILD`. -/
def ECHILD : Nat := 10

/-- A computation of the program: from a machine state to a value or a failure, and the
machine state reached.  The state survives a failure, as it does when a C++ exception
propagates. -/
def Prog (α : Type) : Type := machine → Except failure α × machine

/-- Normal completion with a value. -/
def Prog.pure {α : Type} (a : α) : Prog α := fun m => (.ok a, m)

/-- Sequencing: the second computation runs only if the first completes normally. -/
def Prog.bind {α β : Type} (x : Prog α) (f : α → Prog β) : Prog β := fun m =>
  match x m with
  | (.ok a, m1) => f a m1
  | (.error e, m1) => (.error e, m1)

instance : Monad Prog where
  pure := Prog.pure
  bind := Prog.bind

/-- Leaving the normal path with a failure. -/
def Prog.fail {α : Type} (f : failure) : Prog α := fun m => (.error f, m)

/-- A `try` block with a single handler `catch (process_error & pe)`: only a failed
construction is caught; every other failure propagates. -/
def try_catch_process_error {α : Type} (body : Prog α) (handler : process_error → Prog α) :
    Prog α := fun m =>
  match body m with
  | (.error (.launch_error pe), m1) => handler pe m1
  | r => r

/-- The statement `std::cout << text << std::endl;`. -/
def cout_line (text : std_string) : Prog Unit := fun m =>
  (.ok (), { m with out := m.out ++ [text] })

/-- The statement `std::cerr << text << std::endl;`. -/
def cerr_line (text : std_string) : Prog Unit := fun m =>
  (.ok (), { m with err := m.err ++ [text] })

/-! ## Executable resolution (specification sections 4.1 and 4.4 step 1) -/

/-- Modelled from the spec: `find_executable(name, snapshot)` of section 4.1, "searches the
directories listed in the snapshot's path-like variable, returns the first combination of
directory + name that refers to an executable file, or Not-Found" (`none`).  The path-like
variable is `PATH` and the executable suffix is empty (the POSIX-shaped platform). -/
def environment.find_executable (w : world) (e : environment) (name : std_string) :
    Option std_string :=
  match e.get "PATH".toList with
  | none => none
  | some v => (v.as_vector.map (fun dir => dir ++ "/".toList ++ name)).find? w.executable

/-- Modelled from the spec: `std::this_process::environment::native_environment()`, the
`native()` of section 4.1: a snapshot that is a copy of the calling process's current
environment. -/
def native_environment : Prog environment := fun m => (.ok m.environ, m)

/-- Modelled from the spec: `std::this_process::environment::find_executable(name)`, the
search of section 4.1 over the calling process's own environment; Not-Found is signalled
as a failure. -/
def this_process_find_executable (w : world) (name : std_string) : Prog std_string := fun m =>
  match m.environ.find_executable w name with
  | none => (.error .not_found, m)
  | some path => (.ok path, m)

/-- Modelled from the spec: `snapshot.find_executable(name)` as called in `env.cpp`
line 32; Not-Found is signalled as a failure. -/
def environment.find_executable_or_fail (w : world) (e : environment) (name : std_string) :
    Prog std_string := fun m =>
  match e.find_executable w name with
  | none => (.error .not_found, m)
  | some path => (.ok path, m)

/-- Modelled from the spec: step 1 of section 4.4, "Resolve executable path via
Environment Model if not already absolute", with the invariant of section 3 that the
result is an existing executable file.  `none` means unresolved. -/
def resolve (w : world) (snapshot : environment) (exe : std_string) : Option std_string :=
  if exe.head? = some '/' then
    if w.executable exe then some exe else none
  else
    snapshot.find_executable w exe

/-! ## Pipe streams (specification section 4.2, blocking mode) -/

/-- Modelled from the spec: the parent's end of a pipe in blocking mode, `std::ipstream`,
with the state of a C++ input stream: the bytes still to be extracted, whether
end-of-file follows them (the child side gets closed) or the channel stays open without
further data, and the three error-state bits `eofbit`, `failbit`, `badbit`. -/
structure ipstream where
  buf : std_string
  closes : Bool
  eofbit : Bool
  failbit : Bool
  badbit : Bool
deriving DecidableEq

/-- The conversion of a stream to `bool` (`!fail()`): neither `failbit` nor `badbit`. -/
def ipstream.to_bool (s : ipstream) : Bool := !(s.failbit || s.badbit)

/-- The member `good()`: no error-state bit is set. -/
def ipstream.good (s : ipstream) : Bool := !(s.eofbit || s.failbit || s.badbit)

/-- The extraction step of `std::getline` with delimiter newline: characters are taken
from the input and appended until the input ends or a newline is met; the newline is
extracted but not appended.  The result is the characters appended, the input left, and
whether the input ended before a newline was met. -/
def getline_extract : std_string → std_string × std_string × Bool
  | [] => ([], [], true)
  | c :: cs =>
    if c = '\n' then ([], cs, false)
    else
      let r := getline_extract cs
      (c :: r.1, r.2.1, r.2.2)

/-- The standard function `std::getline(is, str)`.  If the stream is not `good()` the
sentry fails: `failbit` is set and `str` is left alone.  Otherwise `str` is erased and
filled by the extraction step; meeting end-of-file sets `eofbit`, and `failbit` as well
when no character at all was extracted.  When the input runs out on a channel that never
closes, the blocking read never returns (`none`).  The limit `str.max_size()` on the
number of characters stored is not represented. -/
def getline (is : ipstream) (str : std_string) : Option (ipstream × std_string) :=
  if !is.good then
    some ({ is with failbit := true }, str)
  else
    let r := getline_extract is.buf
    if r.2.2 then
      if is.closes then
        some ({ is with buf := [], eofbit := true, failbit := r.1.isEmpty }, r.1)
      else none
    else
      some ({ is with buf := r.2.1 }, r.1)

/-! ## Launcher, extensions and process handle (specification sections 4.3 - 4.5) -/

/-- Modelled from the spec: one binding of the I/O Redirection Spec of section 3. -/
inductive stream_binding where
  | inherit
  | discard
  | pipe
deriving DecidableEq

/-- Modelled from the spec: the I/O Redirection Spec `std::process_io` of section 3, one
binding for each of standard input, standard output and standard error; an empty
binding `{}` is "inherit from parent". -/
structure process_io where
  std_in : stream_binding := .inherit
  std_out : stream_binding := .inherit
  std_err : stream_binding := .inherit
deriving DecidableEq

/-- Modelled from the spec: what a launcher holds besides the startup structure: the
resolved executable, the arguments, the environment handed to the child, the redirection
and the optional working directory (section 4.4). -/
structure launch_params where
  exe : std_string
  args : List std_string
  env : environment
  io : process_io
  start_dir : Option std_string
deriving DecidableEq

/-- The process-wide state of the freshly forked child that the pre-exec phase may change
before the target binary starts: its root directory and its working directory. -/
structure child_ctx where
  root : std_string
  cwd : std_string
deriving DecidableEq

/-- Modelled from the spec: a Launch Extension (sections 3 and 4.3), an object exposing
zero or more hooks.  A hook either returns normally with the parameters it may have
changed, or raises an error code.  The phases on-error and on-success, used by no
example, are not represented. -/
structure extension where
  on_setup : Option (Launcher launch_params → Except Nat (Launcher launch_params)) := none
  on_exec_setup : Option (world → Launcher launch_params → child_ctx →
    Except Nat (Launcher launch_params × child_ctx)) := none

/-- Modelled from the spec: the pre-setup phase (section 4.3, phase 1): the hooks run in
registration order, and the first one to raise stops the sequence. -/
def run_on_setup : List extension → Launcher launch_params →
    Except Nat (Launcher launch_params)
  | [], l => .ok l
  | e :: es, l =>
    match e.on_setup with
    | none => run_on_setup es l
    | some hook =>
      match hook l with
      | .error ec => .error ec
      | .ok l1 => run_on_setup es l1

/-- Modelled from the spec: the post-fork / pre-exec phase (section 4.3, phase 2), run in
the child: the hooks run in registration order, and the first one to raise stops the
sequence. -/
def run_on_exec_setup (w : world) : List extension → Launcher launch_params → child_ctx →
    Except Nat (Launcher launch_params × child_ctx)
  | [], l, ctx => .ok (l, ctx)
  | e :: es, l, ctx =>
    match e.on_exec_setup with
    | none => run_on_exec_setup w es l ctx
    | some hook =>
      match hook w l ctx with
      | .error ec => .error ec
      | .ok (l1, ctx1) => run_on_exec_setup w es l1 ctx1

/-- Modelled from the spec: the Process Handle of section 3.  It owns the child's
identifier and its termination state: `cached = none` is Running, `cached = some c` is
Terminated with the exit code `c` cached. -/
structure process where
  pid : Nat
  cached : Option Int
deriving DecidableEq

/-- An all-zero startup structure, the launch parameters before any hook runs. -/
def STARTUPINFO.zero : STARTUPINFO :=
  ⟨0, 0, 0, 0, 0, 0, 0, 0, 0, 0, 0, 0, 0, 0, 0, 0, 0, 0⟩

/-- The arguments of a `std::process` constructor call (section 6, process construction
surface): executable, argument sequence, optional environment override, optional
redirection, optional working directory, extensions. -/
structure launch_request where
  exe : std_string
  args : List std_string := []
  env : Option environment := none
  io : process_io := {}
  start_dir : Option std_string := none
  exts : List extension := []

/-- The parent's end of the pipe bound to a child's standard output: it delivers the
bytes the child writes, followed by end-of-file unless the child never exits. -/
def ipstream.of_child (b : child_behaviour) : ipstream :=
  { buf := b.output, closes := b.fate != .hangs, eofbit := false, failbit := false,
    badbit := false }

/-- A default-constructed `std::ipstream`, bound to no child: nothing to read. -/
def ipstream.unbound : ipstream :=
  { buf := [], closes := true, eofbit := false, failbit := false, badbit := false }

/-- Modelled from the spec: the Process Launcher of section 4.4, which is what the
constructor of `std::process` runs.  Step 1 resolves the executable (unresolved: a
Resolution Error carrying the path as given).  Steps 2-3 build the launch parameters.
Step 4 runs the pre-setup hooks.  Step 5 spawns: a working directory that does not exist
or a failing operating-system call is a Launch Error carrying the resolved path; the
pre-exec hooks run in the child, which starts with the parent's root directory.  A hook
that raises gives an Extension Error and leaves no child behind.  Step 7 returns the
handle, Running, together with the parent's end of the standard-output pipe. -/
def launch (w : world) (r : launch_request) : Prog (process × ipstream) := fun m =>
  let snapshot := r.env.getD m.environ
  match resolve w snapshot r.exe with
  | none => (.error (.launch_error ⟨.resolution, r.exe, ENOENT⟩), m)
  | some path =>
    let l : Launcher launch_params :=
      { startup_info := STARTUPINFO.zero,
        rest := { exe := path, args := r.args, env := snapshot, io := r.io,
                  start_dir := r.start_dir } }
    match run_on_setup r.exts l with
    | .error ec => (.error (.launch_error ⟨.extension, path, ec⟩), m)
    | .ok l1 =>
      if (match l1.rest.start_dir with
          | some dir => !w.directory dir
          | none => false) then
        (.error (.launch_error ⟨.launch, path, ENOENT⟩), m)
      else
        match w.spawn_errno path with
        | some ec => (.error (.launch_error ⟨.launch, path, ec⟩), m)
        | none =>
          let ctx : child_ctx := { root := "/".toList, cwd := l1.rest.start_dir.getD m.cwd }
          match run_on_exec_setup w r.exts l1 ctx with
          | .error ec => (.error (.launch_error ⟨.extension, path, ec⟩), m)
          | .ok (l2, ctx1) =>
            let record : spawn_record :=
              { exe := l2.rest.exe, argv := l2.rest.exe :: l2.rest.args, env := l2.rest.env,
                cwd := ctx1.cwd, root := ctx1.root, startup_info := l2.startup_info,
                stdout_piped := l2.rest.io.std_out == .pipe }
            let stream :=
              if l2.rest.io.std_out == .pipe then ipstream.of_child (w.behaviour record)
              else ipstream.unbound
            (.ok ({ pid := m.children.length, cached := none }, stream),
             { m with children := m.children ++ [{ record := record, reaped := false }] })

/-- Modelled from the spec: `wait()` of section 4.5.  On a Terminated handle it "returns
immediately with the cached exit code", touching neither the handle nor the operating
system.  On a Running handle it blocks until the operating system reports termination,
reaps the child and caches the code; a child that never exits makes the call never
return, and a child that cannot be reaped (or is not there to reap) is an Observation
Error.  The result is the handle after the call and the exit code. -/
def process.wait (w : world) (p : process) : Prog (process × Int) := fun m =>
  match p.cached with
  | some c => (.ok (p, c), m)
  | none =>
    match m.children[p.pid]? with
    | none => (.error (.observation_error ECHILD), m)
    | some ch =>
      if ch.reaped then (.error (.observation_error ECHILD), m)
      else
        match (w.behaviour ch.record).fate with
        | .exits c =>
          (.ok ({ p with cached := some c }, c),
           { m with children := m.children.set p.pid { ch with reaped := true } })
        | .hangs => (.error .no_return, m)
        | .unreapable errno => (.error (.observation_error errno), m)

/-- Modelled from the spec: `exit_code()` of section 4.5, "returns the cached exit status;
signals a precondition violation if called before termination is observed". -/
def process.exit_code (p : process) : Prog Int := fun m =>
  match p.cached with
  | some c => (.ok c, m)
  | none => (.error .precondition_violation, m)

/-- A number of further `wait()` calls on one handle, one after the other; the result is
the handle after the last call. -/
def wait_again (w : world) : Nat → process → Prog process
  | 0, p => pure p
  | n + 1, p => do
    let (p1, _) ← p.wait w
    wait_again w n p1

/-! ## The example programs -/

namespace args

/-- The program `args.cpp`: launch `test.exe`, found through the native environment, with
two arguments; wait; return the exit code. -/
def main (w : world) : Prog Int := do
  let exe ← this_process_find_executable w "test.exe".toList
  let (p, _) ← launch w { exe := exe, args := ["--foo".toList, "/bar".toList] }
  let (p, _) ← p.wait w
  p.exit_code

end args

namespace wait

/-- The first block of `wait.cpp` (lines 7-11): launch, wait, read the exit code into a
local variable; the value of that variable is the result. -/
def block1 (w : world) : Prog Int := do
  let exe ← this_process_find_executable w "test.exe".toList
  let (c, _) ← launch w { exe := exe, args := [] }
  let (c, _) ← c.wait w
  let exit_code ← c.exit_code
  pure exit_code

end wait

namespace error_handling

/-- The program `error_handling.cpp`: the construction of a process from the name
`does-not-exist` inside a `try` block whose handler prints the path carried by the
`process_error`; `main` then returns 0. -/
def main (w : world) : Prog Int := do
  try_catch_process_error
    (do
      let (_, _) ← launch w { exe := "does-not-exist".toList, args := [] }
      pure ())
    (fun pe => cout_line ("Process launch error for file: ".toList ++ pe.path))
  pure 0

end error_handling

namespace intro

/-- The loop of `intro.cpp` lines 11-12,
`while (pipe_stream && std::getline(pipe_stream, line) && !line.empty())
   std::cerr << line << std::endl;`,
with the short-circuit evaluation of its condition.  The first argument bounds the number
of iterations; an iteration that continues has consumed at least one character or has
met end-of-file, so the buffer length plus one is enough (see `read_loop_fuel`). -/
def read_loop : Nat → ipstream → std_string → Prog (ipstream × std_string)
  | 0, _, _ => Prog.fail .out_of_fuel
  | fuel + 1, pipe_stream, line =>
    if !pipe_stream.to_bool then pure (pipe_stream, line)
    else
      match getline pipe_stream line with
      | none => Prog.fail .no_return
      | some (pipe_stream, line) =>
        if pipe_stream.to_bool && !line.isEmpty then do
          cerr_line line
          read_loop fuel pipe_stream line
        else pure (pipe_stream, line)

/-- The program `intro.cpp`: launch `/usr/bin/gcc --version` with standard output bound
to `pipe_stream`, echo its lines to standard error, wait, return the exit code. -/
def main (w : world) : Prog Int := do
  let (c, pipe_stream) ← launch w
    { exe := "/usr/bin/gcc".toList, args := ["--version".toList], io := { std_out := .pipe } }
  let line : std_string := []
  let _ ← read_loop (pipe_stream.buf.length + 1) pipe_stream line
  let (c, _) ← c.wait w
  c.exit_code

end intro

/-- An iterator into `keys` used where a key is expected (`env.cpp` lines 27 and 31 pass
`path_key` to `get` and `set`): the element it refers to, or, for the end iterator, which
refers to none, the failure `end_iterator_used`. -/
def iterator_key (keys : List std_string) (it : Nat) : Prog std_string := fun m =>
  match keys[it]? with
  | some k => (.ok k, m)
  | none => (.error .end_iterator_used, m)

/-- Modelled from the spec: `get(name)` as called in `env.cpp` line 27, with Not-Found
signalled as a failure. -/
def environment.get_or_fail (e : environment) (name : std_string) : Prog env_value := fun m =>
  match e.get name with
  | none => (.error .not_found, m)
  | some v => (.ok v, m)

namespace env

/-- The program `env.cpp`: copy the native environment, find the first key whose upper
case is `PATH`, append `/foo` to its list of directories in the copy, launch `test.exe`
found through the copy, with the copy as the child's environment; wait; return the exit
code. -/
def main (w : world) : Prog Int := do
  let my_env ← native_environment
  let additional_path : std_string := "/foo".toList
  let keys := my_env.keys
  let path_key := find_if is_path_key keys
  let paths := (← my_env.get_or_fail (← iterator_key keys path_key)).as_vector
  let paths := paths ++ [additional_path]
  let my_env := my_env.set (← iterator_key keys path_key) paths
  let exe ← my_env.find_executable_or_fail w "test.exe".toList
  let (proc, _) ← launch w { exe := exe, env := some my_env }
  let (proc, _) ← proc.wait w
  proc.exit_code

end env

/-- The system call `::chroot(path)` made in a child: on success it returns 0 and the
root directory of the calling process becomes `path`; on failure it returns -1 and
changes nothing. -/
def sys_chroot (w : world) (ctx : child_ctx) (path : std_string) : Int × child_ctx :=
  if w.may_chroot path then (0, { ctx with root := path }) else (-1, ctx)

namespace posix

/-- The local structure `chroot` of `posix.cpp` (lines 5-15), with its one data member. -/
structure chroot where
  root_to : std_string

/-- The hook `chroot::on_exec_setup` of `posix.cpp` lines 9-13: the single statement
`::chroot(root_to);`, whose return value is not used; the hook then returns normally. -/
def chroot.on_exec_setup (self : chroot) (w : world) (l : Launcher launch_params)
    (ctx : child_ctx) : Except Nat (Launcher launch_params × child_ctx) :=
  let r := sys_chroot w ctx self.root_to
  .ok (l, r.2)

/-- The object `chroot(...)` seen as a launch extension: it has the pre-exec hook and no
other. -/
def chroot.to_extension (self : chroot) : extension :=
  { on_exec_setup := some self.on_exec_setup }

/-- The program `posix.cpp`: launch `./test` with the `chroot` extension for
`/new/root/directory/`; wait; return the exit code. -/
def main (w : world) : Prog Int := do
  let (proc, _) ← launch w
    { exe := "./test".toList, args := [],
      exts := [chroot.to_extension ⟨"/new/root/directory/".toList⟩] }
  let (proc, _) ← proc.wait w
  proc.exit_code

end posix

/-- The function `std::filesystem::absolute`: an absolute path is returned as it is, a
relative one is appended to the current working directory. -/
def filesystem_absolute (p : std_string) : Prog std_string := fun m =>
  (.ok (if p.head? = some '/' then p else m.cwd ++ "/".toList ++ p), m)

namespace start_dir

/-- The program `start_dir.cpp`: launch the absolute path of `test.exe` with the working
directory `../foo`; wait; return the exit code. -/
def main (w : world) : Prog Int := do
  let exe : std_string := "test.exe".toList
  let (proc, _) ← launch w
    { exe := ← filesystem_absolute exe, args := [], start_dir := some "../foo".toList }
  let (proc, _) ← proc.wait w
  proc.exit_code

end start_dir

/-! ## Asynchronous wait (specification sections 4.5, 4.6 and 5) -/

/-- Modelled from the spec: one process handle seen from an executor.  `exited` is the
termination the operating system has reported, if any; `pending` are the `async_wait`
registrations still waiting for it; `queue` is the executor's completion queue, first in
first out; `resolved` lists the futures resolved so far, each with the code it was
resolved with; `registered` counts the registrations made, which also numbers them. -/
structure async_state where
  exited : Option Int
  pending : List Nat
  queue : List (Nat × Int)
  resolved : List (Nat × Int)
  registered : Nat
deriving DecidableEq

/-- The state before any registration, with the child running. -/
def async_state.init : async_state :=
  { exited := none, pending := [], queue := [], resolved := [], registered := 0 }

/-- The things that can happen, in any order: a call of `async_wait(executor)`, the
operating system reporting that the child has exited, and the executor being driven for
one queued completion. -/
inductive async_event where
  | async_wait
  | child_exit
  | run_one
deriving DecidableEq

/-- Modelled from the spec: the effect of one event, for a child whose exit code is `code`.
`async_wait` "registers interest in termination" and never completes in the calling
context: on a handle already terminated the completion is queued.  The termination
notification happens once (`Running → Terminated`, no re-entry) and is delivered to all
outstanding registrations by queueing their completions.  Driving the executor resolves
the completion at the head of the queue. -/
def async_step (code : Int) (s : async_state) : async_event → async_state
  | .async_wait =>
    match s.exited with
    | none => { s with pending := s.pending ++ [s.registered], registered := s.registered + 1 }
    | some c =>
      { s with queue := s.queue ++ [(s.registered, c)], registered := s.registered + 1 }
  | .child_exit =>
    match s.exited with
    | none =>
      { s with exited := some code, queue := s.queue ++ s.pending.map (fun i => (i, code)),
               pending := [] }
    | some _ => s
  | .run_one =>
    match s.queue with
    | [] => s
    | x :: rest => { s with queue := rest, resolved := s.resolved ++ [x] }

/-- The state reached from `s` by a sequence of events. -/
def async_run (code : Int) (s : async_state) (es : List async_event) : async_state :=
  es.foldl (async_step code) s

/-- Driving the executor until its queue is empty: one `run_one` for each queued
completion. -/
def drain (code : Int) (s : async_state) : async_state :=
  async_run code s (List.replicate s.queue.length .run_one)

/-- Modelled from the spec: `exec.context().run()` for a child that exits with `code`: the
run loop dispatches what is queued, and while registrations are outstanding it stays in
the loop until the child's termination is reported, then dispatches those completions
too. -/
def executor_run (code : Int) (s : async_state) : async_state :=
  let s1 := drain code s
  if s1.pending.isEmpty then s1 else drain code (async_step code s1 .child_exit)

/-- Modelled from the spec: `future.get()` on the future of registration `id`: the code it
was resolved with, if it has been resolved. -/
def future_get (s : async_state) (id : Nat) : Option Int :=
  s.resolved.lookup id

namespace async_io

/-- The asynchronous wait of `async_io.cpp` (lines 21, 23 and 27), for a child that exits
with `code`: `p.async_wait(exec, std::use_future_t())` registers the future numbered 0,
`exec.context().run()` drives the executor, and `exec_future.get()` is the value `main`
returns.  The asynchronous read of lines 20 and 25 is not represented. -/
def wait_part (code : Int) : Option Int :=
  let s := async_step code .init .async_wait
  let s := executor_run code s
  future_get s 0

end async_io

/-! ## Notions used to state the properties -/

/-- A computation is safe with postcondition `Q` when it never ends in the precondition
violation of `exit_code()` nor in an exhausted iteration bound, and every value it
completes with satisfies `Q`. -/
def safe {α : Type} (x : Prog α) (Q : α → Prop) : Prop :=
  ∀ m m1, (∀ a, x m = (.ok a, m1) → Q a)
    ∧ x m ≠ (.error .precondition_violation, m1) ∧ x m ≠ (.error .out_of_fuel, m1)

/-- The bytes a child writes when it writes the lines `lines`, each followed by a newline,
and then the characters `tail` without a final newline. -/
def lines_bytes : List std_string → std_string → std_string
  | [], tail => tail
  | l :: ls, tail => l ++ '\n' :: lines_bytes ls tail

/-- The sequence of lines of such an output: the terminated lines, and the unterminated
rest as a last line when it is not empty. -/
def all_lines (lines : List std_string) (tail : std_string) : List std_string :=
  if tail.isEmpty then lines else lines ++ [tail]

/-- The lines of a sequence that precede its first empty line, in order; all of them when
none is empty. -/
def lines_before_first_empty (ls : List std_string) : List std_string :=
  ls.takeWhile (fun l => !l.isEmpty)

/-- The snapshot that the env example hands to its child when `key` is the key it
selected and `v` the native value of that key: the native environment of machine state
`m` with the directory list of `v`, followed by `/foo`, set for `key`. -/
def env_child_snapshot (m : machine) (key : std_string) (v : env_value) : environment :=
  m.environ.set key (v.as_vector ++ ["/foo".toList])

/-- The parameters of the child that the env example creates from machine state `m` when
it hands over the snapshot `snapshot` and the executable resolves to `path`: no arguments
besides the program name, the parent's working directory and root, nothing piped. -/
def env_child_record (m : machine) (snapshot : environment) (path : std_string) :
    spawn_record :=
  { exe := path, argv := [path], env := snapshot, cwd := m.cwd, root := "/".toList,
    startup_info := STARTUPINFO.zero, stdout_piped := false }

/-- The parameters of the child that the intro example creates from machine state `m`:
`/usr/bin/gcc --version`, with the parent's environment, working directory and root, and
standard output bound to the pipe. -/
def gcc_record (m : machine) : spawn_record :=
  { exe := "/usr/bin/gcc".toList, argv := ["/usr/bin/gcc".toList, "--version".toList],
    env := m.environ, cwd := m.cwd, root := "/".toList, startup_info := STARTUPINFO.zero,
    stdout_piped := true }

/-- The invariant of the asynchronous-wait model, for a child whose exit code is `code`:
the registrations made so far are, each exactly once, resolved, queued or pending; every
resolved or queued completion carries `code`; before the termination is reported nothing
is queued or resolved; after it, the reported code is `code` and nothing is pending. -/
def async_inv (code : Int) (s : async_state) : Prop :=
  (s.resolved.map Prod.fst ++ (s.queue.map Prod.fst ++ s.pending)).Perm (List.range s.registered)
  ∧ (∀ x ∈ s.resolved, x.2 = code)
  ∧ (∀ x ∈ s.queue, x.2 = code)
  ∧ (s.exited = none → s.queue = [] ∧ s.resolved = [])
  ∧ (∀ c, s.exited = some c → c = code ∧ s.pending = [])

/-! ## Concrete worlds and machines for the instances -/

/-- A small world: the executables `/bin/test.exe`, `/bin/./test` and `/usr/bin/gcc`
exist; every directory exists; `::chroot` fails for every path (the child is not
privileged); process creation itself never fails; `gcc` writes `hello` and a newline and
exits with 0, any other program writes nothing and exits with 3. -/
def sample_world : world :=
  { executable := fun p =>
      p == "/bin/test.exe".toList || p == "/bin/./test".toList || p == "/usr/bin/gcc".toList,
    directory := fun _ => true,
    may_chroot := fun _ => false,
    spawn_errno := fun _ => none,
    behaviour := fun r =>
      if r.exe = "/usr/bin/gcc".toList then { output := "hello\n".toList, fate := .exits 0 }
      else { output := [], fate := .exits 3 } }

/-- A world like `sample_world` in which no path is an executable file. -/
def barren_world : world :=
  { sample_world with executable := fun _ => false }

/-- A machine state at program start: the environment has `HOME` and `PATH = /bin`, the
working directory is `/bin`, there is no child and nothing has been written. -/
def sample_machine : machine :=
  { environ := ⟨[("HOME".toList, ⟨["/root".toList]⟩), ("PATH".toList, ⟨["/bin".toList]⟩)]⟩,
    cwd := "/bin".toList, children := [], out := [], err := [] }

/-- A machine state at program start whose environment has no `PATH` variable in any
letter case (as after `env -i HOME=/root`). -/
def machine_without_path : machine :=
  { sample_machine with environ := ⟨[("HOME".toList, ⟨["/root".toList]⟩)]⟩ }

/-! ## Theorems -/

theorem toupper_of_lower (c : Char) (h : 97 ≤ c.toNat ∧ c.toNat ≤ 122) :
    (toupper c).toNat = c.toNat - 32 := by
  unfold toupper
  rw [if_pos h]
  obtain ⟨h1, h2⟩ := h
  generalize c.toNat = n at *
  interval_cases n <;> decide

theorem toupper_of_not_lower (c : Char) (h : ¬ (97 ≤ c.toNat ∧ c.toNat ≤ 122)) :
    toupper c = c := by
  unfold toupper
  rw [if_neg h]

theorem to_upper_loop_eq_map (s : std_string) : to_upper_loop s = s.map toupper := by
  induction s with
  | nil => rfl
  | cons c rest ih => simp [to_upper_loop, ih]

theorem char_eq_of_toNat_eq {c d : Char} (h : c.toNat = d.toNat) : c = d := by
  rw [← Char.ofNat_toNat c, ← Char.ofNat_toNat d, h]

/-- An upper-case ASCII letter `u` is the `toupper` image of exactly the characters equal
to it up to case. -/
theorem toupper_eq_upper_iff (c u : Char) (hu : 65 ≤ u.toNat ∧ u.toNat ≤ 90) :
    toupper c = u ↔ char_eq_upto_case c u := by
  constructor
  · intro h
    by_cases hc : 97 ≤ c.toNat ∧ c.toNat ≤ 122
    · have := toupper_of_lower c hc
      rw [h] at this
      right
      refine ⟨Or.inr hc, Or.inl hu, ?_⟩
      omega
    · rw [toupper_of_not_lower c hc] at h
      exact Or.inl h
  · rintro (h | ⟨hc, _, h | h⟩)
    · subst h
      exact toupper_of_not_lower c (by omega)
    · unfold is_ascii_letter at hc
      omega
    · have hc : 97 ≤ c.toNat ∧ c.toNat ≤ 122 := by omega
      apply char_eq_of_toNat_eq
      rw [toupper_of_lower c hc]
      omega

theorem to_upper_eq_iff_forall₂ (s t : std_string)
    (ht : ∀ u ∈ t, 65 ≤ u.toNat ∧ u.toNat ≤ 90) :
    to_upper s = t ↔ eq_upto_ascii_case s t := by
  unfold to_upper eq_upto_ascii_case
  induction s generalizing t with
  | nil =>
    cases t with
    | nil => simp [to_upper_loop]
    | cons u t => simp [to_upper_loop]
  | cons c s ih =>
    cases t with
    | nil => simp [to_upper_loop]
    | cons u t =>
      have hu := ht u (by simp)
      have ht2 : ∀ v ∈ t, 65 ≤ v.toNat ∧ v.toNat ≤ 90 := fun v hv => ht v (by simp [hv])
      simp only [to_upper_loop, List.cons.injEq, List.forall₂_cons]
      rw [toupper_eq_upper_iff c u hu, ih t ht2]

/-! ### C10 and C9 -/

/-- C10: for every string `s`, `to_upper s` has the length of `s` and its `i`-th character
is `toupper` of the `i`-th character of `s`; `toupper` sends each letter a-z to the
character 32 codes below it (A-Z) and leaves every other character unchanged; hence a key
passes the test `to_upper(key) == "PATH"` exactly when it equals `PATH` up to ASCII
letter case. -/
theorem to_upper_spec (s : std_string) :
    (to_upper s).length = s.length
    ∧ (∀ i : Nat, (to_upper s)[i]? = (s[i]?).map toupper)
    ∧ (∀ c : Char, 97 ≤ c.toNat ∧ c.toNat ≤ 122 →
        (toupper c).toNat + 32 = c.toNat ∧ 65 ≤ (toupper c).toNat ∧ (toupper c).toNat ≤ 90)
    ∧ (∀ c : Char, ¬ (97 ≤ c.toNat ∧ c.toNat ≤ 122) → toupper c = c)
    ∧ (is_path_key s = true ↔ eq_upto_ascii_case s "PATH".toList) := by
  refine ⟨?_, ?_, ?_, ?_, ?_⟩
  · simp [to_upper, to_upper_loop_eq_map]
  · intro i
    simp [to_upper, to_upper_loop_eq_map]
  · intro c hc
    have := toupper_of_lower c hc
    omega
  · exact toupper_of_not_lower
  · unfold is_path_key
    rw [beq_iff_eq]
    apply to_upper_eq_iff_forall₂
    decide

/-- A concrete instance of `to_upper_spec`: the key `Path` passes the test of `env.cpp`
and is equal to `PATH` up to case, the letter `p` becomes `P`, and the character `_` is
left alone. -/
theorem to_upper_spec_witness :
    is_path_key "Path".toList = true
    ∧ eq_upto_ascii_case "Path".toList "PATH".toList
    ∧ (toupper 'p').toNat + 32 = ('p').toNat
    ∧ toupper '_' = '_' :=
  have h := to_upper_spec "Path".toList
  have hp : is_path_key "Path".toList = true := by decide
  ⟨hp, h.2.2.2.2.1 hp, (h.2.2.1 'p' (by decide)).1, h.2.2.2.1 '_' (by decide)⟩

/-- C9: each pre-setup hook of the Windows example changes exactly one field of the
launcher.  `start_fullscreeen::on_setup` sets `wShowWindow` to `SHOW_WINDOW` and leaves
`dwFlags`, every other field of `startup_info` and the rest of the launcher unchanged.
`show_window::on_setup` makes `dwFlags` exactly `STARTF_RUNFULLSCREEN`, whatever flags
were set before, and leaves `wShowWindow`, every other field of `startup_info` and the
rest of the launcher unchanged; with `STARTF_USESHOWWINDOW` set before the hook the
result differs from the bitwise OR of the old flags with `STARTF_RUNFULLSCREEN`. -/
theorem windows_hooks_frame {ρ : Type} (SHOW_WINDOW : Nat) (l : Launcher ρ) :
    ((start_fullscreeen.on_setup SHOW_WINDOW l).startup_info.wShowWindow = SHOW_WINDOW
      ∧ (start_fullscreeen.on_setup SHOW_WINDOW l).startup_info.dwFlags
          = l.startup_info.dwFlags
      ∧ (start_fullscreeen.on_setup SHOW_WINDOW l).startup_info.others
          = l.startup_info.others
      ∧ (start_fullscreeen.on_setup SHOW_WINDOW l).rest = l.rest)
    ∧ ((show_window.on_setup l).startup_info.dwFlags = STARTF_RUNFULLSCREEN
      ∧ (show_window.on_setup l).startup_info.wShowWindow = l.startup_info.wShowWindow
      ∧ (show_window.on_setup l).startup_info.others = l.startup_info.others
      ∧ (show_window.on_setup l).rest = l.rest)
    ∧ (∀ l0 : Launcher ρ, l0.startup_info.dwFlags = STARTF_USESHOWWINDOW →
        (show_window.on_setup l0).startup_info.dwFlags
          ≠ l0.startup_info.dwFlags ||| STARTF_RUNFULLSCREEN) := by
  refine ⟨⟨rfl, rfl, rfl, rfl⟩, ⟨rfl, rfl, rfl, rfl⟩, ?_⟩
  intro l0 h0
  show STARTF_RUNFULLSCREEN ≠ l0.startup_info.dwFlags ||| STARTF_RUNFULLSCREEN
  rw [h0]
  decide

/-- A concrete instance of `windows_hooks_frame`: a launcher whose flags are
`STARTF_USESHOWWINDOW` before `show_window::on_setup` runs has flags `0x20` after it, not
`0x21`. -/
theorem windows_hooks_frame_witness :
    (show_window.on_setup
        (⟨{ STARTUPINFO.zero with dwFlags := STARTF_USESHOWWINDOW }, ()⟩ : Launcher Unit)
      ).startup_info.dwFlags = 0x20
    ∧ (show_window.on_setup
        (⟨{ STARTUPINFO.zero with dwFlags := STARTF_USESHOWWINDOW }, ()⟩ : Launcher Unit)
      ).startup_info.dwFlags
        ≠ STARTF_USESHOWWINDOW ||| STARTF_RUNFULLSCREEN :=
  have h := windows_hooks_frame 5
    (⟨{ STARTUPINFO.zero with dwFlags := STARTF_USESHOWWINDOW }, ()⟩ : Launcher Unit)
  ⟨h.2.1.1, h.2.2 _ rfl⟩

/-! ### The monad of programs -/

@[simp] theorem pure_run {α : Type} (a : α) (m : machine) :
    (pure a : Prog α) m = (.ok a, m) := rfl

theorem bind_run {α β : Type} (x : Prog α) (f : α → Prog β) (m : machine) :
    (x >>= f) m = match x m with
      | (.ok a, m1) => f a m1
      | (.error e, m1) => (.error e, m1) := rfl

theorem bind_ok {α β : Type} (x : Prog α) (f : α → Prog β) (m m1 : machine) (a : α)
    (h : x m = (.ok a, m1)) : (x >>= f) m = f a m1 := by
  rw [bind_run, h]

theorem bind_error {α β : Type} (x : Prog α) (f : α → Prog β) (m m1 : machine)
    (e : failure) (h : x m = (.error e, m1)) : (x >>= f) m = (.error e, m1) := by
  rw [bind_run, h]

/-! ### C1: waiting again -/

theorem wait_of_cached (w : world) (p : process) (c : Int) (m : machine)
    (h : p.cached = some c) : p.wait w m = (.ok (p, c), m) := by
  unfold process.wait
  rw [h]

theorem cached_of_wait (w : world) (p p1 : process) (c : Int) (m m1 : machine)
    (h : p.wait w m = (.ok (p1, c), m1)) : p1.cached = some c := by
  unfold process.wait at h
  split at h
  · rename_i c0 hc
    simp only [Prod.mk.injEq, Except.ok.injEq] at h
    obtain ⟨⟨rfl, rfl⟩, -⟩ := h
    exact hc
  · split at h
    · simp at h
    · split at h
      · simp at h
      · split at h
        · simp only [Prod.mk.injEq, Except.ok.injEq] at h
          obtain ⟨⟨rfl, rfl⟩, -⟩ := h
          rfl
        · simp at h
        · simp at h

theorem wait_again_of_cached (w : world) (n : Nat) (p : process) (c : Int) (m : machine)
    (h : p.cached = some c) : wait_again w n p m = (.ok p, m) := by
  induction n with
  | zero => rfl
  | succ n ih =>
    unfold wait_again
    rw [bind_ok _ _ m m (p, c) (wait_of_cached w p c m h)]
    exact ih

/-- C1: if `wait()` on a process handle returns (with handle `p1` after the call, exit code
`c` and machine state `m1`), then `exit_code()` returns `c`; any number `n` of further
`wait()` calls leaves the handle and the machine state as they are; a `wait()` after them
returns at once with the same `c`; and `exit_code()` after them returns the same `c`. -/
theorem wait_idempotent (w : world) (p p1 : process) (c : Int) (m m1 : machine)
    (h : p.wait w m = (.ok (p1, c), m1)) (n : Nat) :
    p1.exit_code m1 = (.ok c, m1)
    ∧ wait_again w n p1 m1 = (.ok p1, m1)
    ∧ p1.wait w m1 = (.ok (p1, c), m1)
    ∧ (wait_again w n p1 >>= fun q => q.exit_code) m1 = (.ok c, m1) := by
  have hc := cached_of_wait w p p1 c m m1 h
  have he : p1.exit_code m1 = (.ok c, m1) := by
    unfold process.exit_code
    rw [hc]
  refine ⟨he, wait_again_of_cached w n p1 c m1 hc, wait_of_cached w p1 c m1 hc, ?_⟩
  rw [bind_ok _ _ m1 m1 p1 (wait_again_of_cached w n p1 c m1 hc)]
  exact he

/-! ### C3: `exit_code()` is called after `wait()` -/

theorem safe_bind {α β : Type} {x : Prog α} {f : α → Prog β} {Q : α → Prop} {R : β → Prop}
    (hx : safe x Q) (hf : ∀ a, Q a → safe (f a) R) : safe (x >>= f) R := by
  intro m m2
  rw [bind_run]
  rcases hxm : x m with ⟨r, m1⟩
  cases r with
  | error e =>
    refine ⟨fun a h => by simp at h, ?_, ?_⟩
    · intro h
      simp only [Prod.mk.injEq, Except.error.injEq] at h
      obtain ⟨rfl, rfl⟩ := h
      exact (hx m m1).2.1 hxm
    · intro h
      simp only [Prod.mk.injEq, Except.error.injEq] at h
      obtain ⟨rfl, rfl⟩ := h
      exact (hx m m1).2.2 hxm
  | ok a => exact hf a ((hx m m1).1 a hxm) m1 m2

theorem safe_pure {α : Type} (a : α) : safe (pure a : Prog α) (fun _ => True) := by
  intro m m1
  refine ⟨fun _ _ => trivial, ?_, ?_⟩
  · show ((Except.ok a, m) : Except failure α × machine) ≠ _
    simp
  · show ((Except.ok a, m) : Except failure α × machine) ≠ _
    simp

theorem safe_of_ne {α : Type} (x : Prog α)
    (h : ∀ m, (x m).1 ≠ .error .precondition_violation ∧ (x m).1 ≠ .error .out_of_fuel) :
    safe x (fun _ => True) := by
  intro m m1
  refine ⟨fun _ _ => trivial, ?_, ?_⟩
  · intro he
    exact (h m).1 (by rw [he])
  · intro he
    exact (h m).2 (by rw [he])

theorem ne_of_safe {α : Type} {x : Prog α} {Q : α → Prop} (h : safe x Q) (m : machine) :
    (x m).1 ≠ .error .precondition_violation ∧ (x m).1 ≠ .error .out_of_fuel := by
  constructor
  · intro he
    exact (h m (x m).2).2.1 (by rw [← he])
  · intro he
    exact (h m (x m).2).2.2 (by rw [← he])

theorem safe_find_executable (w : world) (name : std_string) :
    safe (this_process_find_executable w name) (fun _ => True) := by
  apply safe_of_ne
  intro m
  unfold this_process_find_executable
  split <;> simp

theorem safe_launch (w : world) (r : launch_request) : safe (launch w r) (fun _ => True) := by
  apply safe_of_ne
  intro m
  unfold launch
  simp only
  repeat' split
  all_goals simp

theorem safe_wait (w : world) (p : process) :
    safe (p.wait w) (fun r => r.1.cached ≠ none) := by
  intro m m1
  refine ⟨?_, ?_, ?_⟩
  · intro a h
    rw [cached_of_wait w p a.1 a.2 m m1 h]
    simp
  · unfold process.wait
    repeat' split
    all_goals simp
  · unfold process.wait
    repeat' split
    all_goals simp

theorem safe_exit_code (p : process) (h : p.cached ≠ none) :
    safe p.exit_code (fun _ => True) := by
  apply safe_of_ne
  intro m
  unfold process.exit_code
  split
  · simp
  · contradiction

theorem safe_wait_exit_code (w : world) (p : process) :
    safe (p.wait w >>= fun r => r.1.exit_code) (fun _ => True) :=
  safe_bind (safe_wait w p) (fun r hr => safe_exit_code r.1 hr)

theorem safe_launch_wait_exit_code (w : world) (r : launch_request) :
    safe (launch w r >>= fun x => x.1.wait w >>= fun y => y.1.exit_code) (fun _ => True) :=
  safe_bind (safe_launch w r) (fun x _ => safe_wait_exit_code w x.1)

theorem safe_args_main (w : world) : safe (args.main w) (fun _ => True) := by
  unfold args.main
  refine safe_bind (safe_find_executable w _) ?_
  intro exe _
  exact safe_launch_wait_exit_code w _

theorem getline_extract_rest_lt (b : std_string) (h : (getline_extract b).2.2 = false) :
    (getline_extract b).2.1.length < b.length := by
  induction b with
  | nil => simp [getline_extract] at h
  | cons c cs ih =>
    unfold getline_extract at h ⊢
    by_cases hc : c = '\n'
    · simp [hc]
    · simp only [hc, if_false] at h ⊢
      have := ih h
      simp only [List.length_cons]
      omega

theorem safe_cerr_line (text : std_string) : safe (cerr_line text) (fun _ => True) := by
  apply safe_of_ne
  intro m
  simp [cerr_line]

theorem safe_fail {α : Type} (f : failure) (h : f ≠ .precondition_violation)
    (h2 : f ≠ .out_of_fuel) : safe (Prog.fail f : Prog α) (fun _ => True) := by
  apply safe_of_ne
  intro m
  exact ⟨by simpa [Prog.fail] using h, by simpa [Prog.fail] using h2⟩

/-- The loop of the intro example is safe, and in particular its iteration bound is never
the reason it ends, as soon as the bound exceeds the length of the buffer (for a stream
that is not `good()` a bound of one is enough). -/
theorem read_loop_fuel (fuel : Nat) (s : ipstream) (line : std_string)
    (h : (if s.good then s.buf.length + 1 else 1) ≤ fuel) :
    safe (intro.read_loop fuel s line) (fun _ => True) := by
  induction fuel generalizing s line with
  | zero =>
    split at h <;> omega
  | succ n ih =>
    unfold intro.read_loop
    split
    · exact safe_pure _
    · unfold getline
      by_cases hg : s.good = true
      · simp only [hg, Bool.not_true, Bool.false_eq_true, if_false, if_true] at h ⊢
        by_cases he : (getline_extract s.buf).2.2 = true
        · simp only [he, if_true]
          by_cases hc : s.closes = true
          · simp only [hc, if_true]
            split
            · rename_i hcont
              refine safe_bind (safe_cerr_line _) (fun _ _ => ih _ _ ?_)
              simp only [ipstream.good, Bool.true_or, Bool.or_true, Bool.not_true,
                Bool.false_eq_true, if_false]
              have hne : s.buf ≠ [] := by
                intro hb
                rw [hb] at hcont
                simp [getline_extract, ipstream.to_bool] at hcont
              have : 0 < s.buf.length := List.length_pos.mpr hne
              omega
            · exact safe_pure _
          · simp only [hc, Bool.false_eq_true, if_false]
            exact safe_fail _ (by simp) (by simp)
        · simp only [he, Bool.false_eq_true, if_false]
          split
          · refine safe_bind (safe_cerr_line _) (fun _ _ => ih _ _ ?_)
            have hlt := getline_extract_rest_lt s.buf (by simpa using he)
            have hg2 : ({ s with buf := (getline_extract s.buf).2.1 } : ipstream).good
                = true := hg
            simp only [hg2, if_true]
            omega
          · exact safe_pure _
      · simp only [hg, Bool.not_false, if_true]
        have htb : ({ s with failbit := true } : ipstream).to_bool = false := by
          simp [ipstream.to_bool]
        simp only [htb, Bool.false_and, Bool.false_eq_true, if_false]
        exact safe_pure _

theorem safe_intro_main (w : world) : safe (intro.main w) (fun _ => True) := by
  unfold intro.main
  refine safe_bind (safe_launch w _) ?_
  intro x _
  refine safe_bind (read_loop_fuel _ _ _ ?_) ?_
  · split <;> omega
  · intro _ _
    exact safe_wait_exit_code w _

theorem safe_posix_main (w : world) : safe (posix.main w) (fun _ => True) := by
  unfold posix.main
  exact safe_launch_wait_exit_code w _

theorem safe_start_dir_main (w : world) : safe (start_dir.main w) (fun _ => True) := by
  unfold start_dir.main
  refine safe_bind (Q := fun _ => True) ?_ ?_
  · apply safe_of_ne
    intro m
    simp [filesystem_absolute]
  · intro _ _
    exact safe_launch_wait_exit_code w _

theorem safe_wait_block1 (w : world) : safe (wait.block1 w) (fun _ => True) := by
  unfold wait.block1
  refine safe_bind (safe_find_executable w _) ?_
  intro exe _
  refine safe_bind (safe_launch w _) ?_
  intro x _
  refine safe_bind (safe_wait w _) ?_
  intro y hy
  refine safe_bind (safe_exit_code _ hy) ?_
  intro _ _
  exact safe_pure _

theorem safe_iterator_key (keys : List std_string) (it : Nat) :
    safe (iterator_key keys it) (fun _ => True) := by
  apply safe_of_ne
  intro m
  unfold iterator_key
  split <;> simp

theorem safe_env_main (w : world) : safe (env.main w) (fun _ => True) := by
  unfold env.main
  refine safe_bind (Q := fun _ => True) ?_ ?_
  · apply safe_of_ne
    intro m
    simp [native_environment]
  intro my_env _
  refine safe_bind (safe_iterator_key _ _) ?_
  intro k _
  refine safe_bind (Q := fun _ => True) ?_ ?_
  · apply safe_of_ne
    intro m
    unfold environment.get_or_fail
    split <;> simp
  intro v _
  refine safe_bind (safe_iterator_key _ _) ?_
  intro k2 _
  refine safe_bind (Q := fun _ => True) ?_ ?_
  · apply safe_of_ne
    intro m
    unfold environment.find_executable_or_fail
    split <;> simp
  intro exe _
  exact safe_launch_wait_exit_code w _

/-- C3: in each example program that calls `exit_code()` (args, env, intro, posix,
start_dir and the first block of wait) and on every machine state, the program never
ends in the precondition violation of `exit_code()`: on every path that reaches the call
a `wait()` on the same handle has completed.  The branch itself exists: `exit_code()` on
a handle in state Running is the precondition violation.  (The iteration bound of the
model's read loop is never what ends the intro example.) -/
theorem exit_code_after_wait (w : world) (m : machine) :
    (args.main w m).1 ≠ .error .precondition_violation
    ∧ (env.main w m).1 ≠ .error .precondition_violation
    ∧ (intro.main w m).1 ≠ .error .precondition_violation
    ∧ (posix.main w m).1 ≠ .error .precondition_violation
    ∧ (start_dir.main w m).1 ≠ .error .precondition_violation
    ∧ (wait.block1 w m).1 ≠ .error .precondition_violation
    ∧ (∀ pid : Nat, process.exit_code ⟨pid, none⟩ m = (.error .precondition_violation, m))
    ∧ (intro.main w m).1 ≠ .error .out_of_fuel :=
  ⟨(ne_of_safe (safe_args_main w) m).1, (ne_of_safe (safe_env_main w) m).1,
   (ne_of_safe (safe_intro_main w) m).1, (ne_of_safe (safe_posix_main w) m).1,
   (ne_of_safe (safe_start_dir_main w) m).1, (ne_of_safe (safe_wait_block1 w) m).1,
   fun _ => rfl, (ne_of_safe (safe_intro_main w) m).2⟩

/-! ### C4: the read loop of the intro example -/

theorem getline_extract_line (l rest : std_string) (h : '\n' ∉ l) :
    getline_extract (l ++ '\n' :: rest) = (l, rest, false) := by
  induction l with
  | nil => simp [getline_extract]
  | cons c cs ih =>
    have hc : c ≠ '\n' := fun e => h (by simp [e])
    have hcs : '\n' ∉ cs := fun e => h (by simp [e])
    simp [getline_extract, hc, ih hcs]

theorem getline_extract_tail (t : std_string) (h : '\n' ∉ t) :
    getline_extract t = (t, [], true) := by
  induction t with
  | nil => simp [getline_extract]
  | cons c cs ih =>
    have hc : c ≠ '\n' := fun e => h (by simp [e])
    have hcs : '\n' ∉ cs := fun e => h (by simp [e])
    simp [getline_extract, hc, ih hcs]

theorem getline_line (s : ipstream) (line0 l rest : std_string) (hs : s.good = true)
    (hb : s.buf = l ++ '\n' :: rest) (h : '\n' ∉ l) :
    getline s line0 = some ({ s with buf := rest }, l) := by
  unfold getline
  simp [hs, hb, getline_extract_line l rest h]

theorem getline_tail (s : ipstream) (line0 : std_string) (hs : s.good = true)
    (hc : s.closes = true) (h : '\n' ∉ s.buf) :
    getline s line0
      = some ({ s with buf := [], eofbit := true, failbit := s.buf.isEmpty }, s.buf) := by
  unfold getline
  simp [hs, hc, getline_extract_tail s.buf h]

theorem to_bool_of_good (s : ipstream) (hs : s.good = true) : s.to_bool = true := by
  unfold ipstream.good at hs
  unfold ipstream.to_bool
  revert hs
  cases s.eofbit <;> cases s.failbit <;> cases s.badbit <;> simp

theorem read_loop_echo (lines : List std_string) (tail : std_string)
    (hl : ∀ l ∈ lines, '\n' ∉ l) (ht : '\n' ∉ tail) (fuel : Nat) (s : ipstream)
    (line0 : std_string) (m : machine) (hs : s.good = true) (hc : s.closes = true)
    (hb : s.buf = lines_bytes lines tail) (hf : s.buf.length + 1 ≤ fuel) :
    ∃ r, intro.read_loop fuel s line0 m
      = (.ok r, { m with err := m.err ++ lines_before_first_empty (all_lines lines tail) }) := by
  induction lines generalizing fuel s line0 m with
  | nil =>
    have hb1 : s.buf = tail := hb
    have hg := to_bool_of_good s hs
    have hfb : s.failbit = false ∧ s.badbit = false := by
      unfold ipstream.good at hs
      revert hs
      cases s.eofbit <;> cases s.failbit <;> cases s.badbit <;> simp
    cases fuel with
    | zero => omega
    | succ n =>
      unfold intro.read_loop
      rw [getline_tail s line0 hs hc (hb1 ▸ ht)]
      cases htl : tail with
      | nil =>
        simp [hg, hb1, htl, ipstream.to_bool, all_lines, lines_before_first_empty, hfb]
      | cons c cs =>
        cases n with
        | zero =>
          rw [hb1, htl] at hf
          simp at hf
        | succ k =>
          unfold intro.read_loop
          simp [hg, hb1, htl, ipstream.to_bool, hfb, getline, ipstream.good, all_lines,
            lines_before_first_empty, bind_run, cerr_line]
  | cons l ls ih =>
    have hb1 : s.buf = l ++ '\n' :: lines_bytes ls tail := hb
    have hg := to_bool_of_good s hs
    have hl1 : '\n' ∉ l := hl l (by simp)
    have hl2 : ∀ x ∈ ls, '\n' ∉ x := fun x hx => hl x (by simp [hx])
    cases fuel with
    | zero => omega
    | succ n =>
      unfold intro.read_loop
      rw [getline_line s line0 l _ hs hb1 hl1]
      have all_cons : lines_before_first_empty (all_lines (l :: ls) tail)
          = if l.isEmpty then [] else l :: lines_before_first_empty (all_lines ls tail) := by
        unfold all_lines lines_before_first_empty
        by_cases hte : tail.isEmpty = true <;> by_cases hle : l.isEmpty = true <;>
          simp [hte, hle, List.takeWhile]
      rw [all_cons]
      have hg2 : ({ s with buf := lines_bytes ls tail } : ipstream).good = true := hs
      have hg3 := to_bool_of_good _ hg2
      by_cases hle : l.isEmpty = true
      · simp only [hg, hg3, hle, Bool.not_true, Bool.and_false, Bool.false_eq_true, if_false,
          Bool.not_false, if_true]
        refine ⟨({ s with buf := lines_bytes ls tail }, l), ?_⟩
        rw [pure_run, List.append_nil]
      · simp only [hg, hg3, hle, Bool.not_true, Bool.and_false, Bool.false_eq_true, if_false,
          Bool.not_false, if_true, Bool.and_true]
        have hlen : ({ s with buf := lines_bytes ls tail } : ipstream).buf.length + 1 ≤ n := by
          show (lines_bytes ls tail).length + 1 ≤ n
          rw [hb1] at hf
          simp at hf
          omega
        obtain ⟨r, hr⟩ := ih hl2 n { s with buf := lines_bytes ls tail } l
          { m with err := m.err ++ [l] } hg2 hc rfl hlen
        refine ⟨r, ?_⟩
        rw [bind_run]
        simp only [cerr_line]
        rw [hr]
        simp
theorem launch_gcc (w : world) (m : machine)
    (hexe : w.executable "/usr/bin/gcc".toList = true)
    (hsp : w.spawn_errno "/usr/bin/gcc".toList = none) :
    launch w { exe := "/usr/bin/gcc".toList, args := ["--version".toList],
               io := { std_out := .pipe } } m
      = (.ok (⟨m.children.length, none⟩, ipstream.of_child (w.behaviour (gcc_record m))),
         { m with children := m.children ++ [⟨gcc_record m, false⟩] }) := by
  unfold launch
  have hr : resolve w m.environ "/usr/bin/gcc".toList = some "/usr/bin/gcc".toList := by
    unfold resolve
    rw [if_pos (by rfl), if_pos hexe]
  simp only [Option.getD_none, hr, run_on_setup, hsp, run_on_exec_setup]
  simp only [beq_self_eq_true, if_true, Bool.false_eq_true, if_false]
  rfl

theorem wait_fresh_child (w : world) (m : machine) (rec : spawn_record) (code : Int)
    (hf : (w.behaviour rec).fate = .exits code) (m1 : machine)
    (hc : m1.children = m.children ++ [⟨rec, false⟩]) :
    process.wait w ⟨m.children.length, none⟩ m1
      = (.ok (⟨m.children.length, some code⟩, code),
         { m1 with children := m.children ++ [⟨rec, true⟩] }) := by
  unfold process.wait
  simp [hc, hf]

/-- C4: in the intro example, when `/usr/bin/gcc` can be launched and the child writes the
lines `lines`, each ended by a newline, followed by the characters `tail` without a final
newline, and exits with `code`, the read loop echoes to standard error exactly the lines
that precede the first empty line (all lines, the unterminated one included, when none
is empty), in their order and after what standard error already held; `main` then waits,
which reaps the child, and returns `code`.  Nothing else of the machine state changes.
On a stream that is already in a failed state the loop stops at once and echoes
nothing. -/
theorem intro_echoes_lines (w : world) (m : machine) (lines : List std_string)
    (tail : std_string) (code : Int)
    (hexe : w.executable "/usr/bin/gcc".toList = true)
    (hsp : w.spawn_errno "/usr/bin/gcc".toList = none)
    (hb : w.behaviour (gcc_record m) = ⟨lines_bytes lines tail, .exits code⟩)
    (hl : ∀ l ∈ lines, '\n' ∉ l) (ht : '\n' ∉ tail) :
    intro.main w m
      = (.ok code,
         { m with err := m.err ++ lines_before_first_empty (all_lines lines tail),
                  children := m.children ++ [⟨gcc_record m, true⟩] })
    ∧ (∀ (fuel : Nat) (s : ipstream) (line : std_string) (m1 : machine),
        s.to_bool = false → intro.read_loop (fuel + 1) s line m1 = (.ok (s, line), m1)) := by
  refine ⟨?_, fun fuel s line m1 h => by unfold intro.read_loop; simp [h, pure_run]⟩
  unfold intro.main
  rw [bind_ok _ _ _ _ _ (launch_gcc w m hexe hsp)]
  simp only
  rw [hb]
  obtain ⟨r, hr⟩ := read_loop_echo lines tail hl ht
    ((ipstream.of_child ⟨lines_bytes lines tail, .exits code⟩).buf.length + 1)
    (ipstream.of_child ⟨lines_bytes lines tail, .exits code⟩) []
    { m with children := m.children ++ [⟨gcc_record m, false⟩] } rfl rfl rfl (le_refl _)
  rw [bind_ok _ _ _ _ _ hr]
  rw [bind_ok _ _ _ _ _ (wait_fresh_child w m (gcc_record m) code (by rw [hb]) _ rfl)]
  rfl

/-- The instance of `intro_echoes_lines` for a child that writes `hello` and a newline and
exits with 0: the single line `hello` is echoed and `main` returns 0. -/
theorem intro_echoes_lines_witness :
    intro.main sample_world sample_machine
      = (.ok 0, { sample_machine with err := ["hello".toList],
                                      children := [⟨gcc_record sample_machine, true⟩] }) :=
  (intro_echoes_lines sample_world sample_machine ["hello".toList] [] 0 rfl rfl rfl
    (by decide) (by decide)).1

/-- C2: a construction whose executable does not resolve to an existing executable
produces no handle: it fails with a `process_error` whose path is exactly the executable
as it was given, and leaves the machine state as it was.  In particular, when the name
`does-not-exist` does not resolve, `main` of the error-handling example runs its handler,
which writes the line `Process launch error for file: does-not-exist` to standard output,
and returns 0. -/
theorem nonexistent_executable_reports_path (w : world) (m : machine) (r : launch_request)
    (hr : resolve w (r.env.getD m.environ) r.exe = none)
    (h : resolve w m.environ "does-not-exist".toList = none) :
    launch w r m = (.error (.launch_error ⟨.resolution, r.exe, ENOENT⟩), m)
    ∧ error_handling.main w m
      = (.ok 0, { m with out := m.out ++
          ["Process launch error for file: does-not-exist".toList] }) := by
  have hl : ∀ r : launch_request, resolve w (r.env.getD m.environ) r.exe = none →
      launch w r m = (.error (.launch_error ⟨.resolution, r.exe, ENOENT⟩), m) := by
    intro r hr
    unfold launch
    simp only [hr]
  refine ⟨hl r hr, ?_⟩
  unfold error_handling.main
  rw [bind_run]
  unfold try_catch_process_error
  rw [bind_error _ _ _ _ _ (hl { exe := "does-not-exist".toList, args := [] } h)]
  rfl

/-- The instance of `nonexistent_executable_reports_path` in a world without any
executable file: the construction of the example fails with the path `does-not-exist`,
and `main` prints it. -/
theorem nonexistent_executable_reports_path_witness :
    resolve barren_world sample_machine.environ "does-not-exist".toList = none
    ∧ launch barren_world { exe := "does-not-exist".toList, args := [] } sample_machine
      = (.error (.launch_error ⟨.resolution, "does-not-exist".toList, 2⟩), sample_machine)
    ∧ error_handling.main barren_world sample_machine
      = (.ok 0, { sample_machine with out :=
          ["Process launch error for file: does-not-exist".toList] }) :=
  ⟨rfl, nonexistent_executable_reports_path barren_world sample_machine
    { exe := "does-not-exist".toList, args := [] } rfl rfl⟩

/-- The instance of `wait_idempotent` for the child that the first block of `wait.cpp`
launches in the sample world: the first `wait()` returns 3 and reaches the machine state
in which that block ends, and `exit_code()` after five further `wait()` calls returns 3
in the same machine state. -/
theorem wait_idempotent_witness :
    (launch sample_world { exe := "/bin/test.exe".toList } sample_machine).1
      = .ok (⟨0, none⟩, ipstream.unbound)
    ∧ process.wait sample_world ⟨0, none⟩
        (launch sample_world { exe := "/bin/test.exe".toList } sample_machine).2
      = (.ok (⟨0, some 3⟩, 3),
         (wait.block1 sample_world sample_machine).2)
    ∧ (wait_again sample_world 5 ⟨0, some 3⟩ >>= fun q => q.exit_code)
        (wait.block1 sample_world sample_machine).2
      = (.ok 3, (wait.block1 sample_world sample_machine).2) :=
  ⟨rfl, rfl,
   (wait_idempotent sample_world ⟨0, none⟩ ⟨0, some 3⟩ 3
      (launch sample_world { exe := "/bin/test.exe".toList } sample_machine).2
      (wait.block1 sample_world sample_machine).2 rfl 5).2.2.2⟩
/-! ### C5, C8 and C6: the env and posix examples -/

theorem find_if_spec {α : Type} (pred : α → Bool) (l : List α) (x : α)
    (h : l[find_if pred l]? = some x) : x ∈ l ∧ pred x = true := by
  induction l with
  | nil => simp [find_if] at h
  | cons y ys ih =>
    unfold find_if at h
    by_cases hy : pred y = true
    · simp [hy] at h
      subst h
      exact ⟨by simp, hy⟩
    · simp [hy] at h
      have := ih h
      exact ⟨by simp [this.1], this.2⟩

theorem find_if_end {α : Type} (pred : α → Bool) (l : List α)
    (h : ∀ x ∈ l, pred x = false) : find_if pred l = l.length := by
  induction l with
  | nil => rfl
  | cons y ys ih =>
    unfold find_if
    have hy := h y (by simp)
    simp [hy, ih (fun x hx => h x (by simp [hx]))]

theorem lookup_set_binding_self (name : std_string) (v : env_value)
    (l : List (std_string × env_value)) : (set_binding name v l).lookup name = some v := by
  induction l with
  | nil => simp [set_binding, List.lookup]
  | cons b rest ih =>
    obtain ⟨k, x⟩ := b
    unfold set_binding
    by_cases hk : k = name
    · simp [hk, List.lookup]
    · have hne : (name == k) = false := by
        simp
        exact fun e => hk e.symm
      simp [hk, List.lookup, hne, ih]

theorem lookup_set_binding_other (name k : std_string) (v : env_value)
    (l : List (std_string × env_value)) (h : k ≠ name) :
    (set_binding name v l).lookup k = l.lookup k := by
  induction l with
  | nil =>
    have hne : (k == name) = false := by simpa using h
    simp [set_binding, List.lookup, hne]
  | cons b rest ih =>
    obtain ⟨k1, x⟩ := b
    unfold set_binding
    by_cases hk : k1 = name
    · subst hk
      have hne : (k == k1) = false := by simpa using h
      simp [List.lookup, hne]
    · simp only [hk, if_false]
      by_cases hkk : (k == k1) = true
      · simp [List.lookup, hkk]
      · simp [List.lookup, hkk, ih]

theorem keys_set_binding (name : std_string) (v : env_value)
    (l : List (std_string × env_value)) (h : name ∈ l.map Prod.fst) :
    (set_binding name v l).map Prod.fst = l.map Prod.fst := by
  induction l with
  | nil => simp at h
  | cons b rest ih =>
    obtain ⟨k, x⟩ := b
    unfold set_binding
    by_cases hk : k = name
    · simp [hk]
    · have hr : name ∈ rest.map Prod.fst := by
        simp only [List.map_cons, List.mem_cons] at h
        rcases h with h | h
        · exact absurd h.symm hk
        · exact h
      simp [hk, ih hr]

theorem lookup_of_mem_keys (name : std_string) (l : List (std_string × env_value))
    (h : name ∈ l.map Prod.fst) : ∃ v, l.lookup name = some v := by
  induction l with
  | nil => simp at h
  | cons b rest ih =>
    obtain ⟨k, x⟩ := b
    by_cases hk : (name == k) = true
    · exact ⟨x, by simp [List.lookup, hk]⟩
    · have hr : name ∈ rest.map Prod.fst := by
        simp only [List.map_cons, List.mem_cons] at h
        rcases h with h | h
        · simp [h] at hk
        · exact h
      obtain ⟨v, hv⟩ := ih hr
      exact ⟨v, by simp [List.lookup, hk, hv]⟩

/-- A construction without extensions either fails and leaves the machine state as it
was, or appends one child, not yet reaped, whose environment is the snapshot given (the
parent's environment when none is given). -/
theorem launch_no_extension (w : world) (r : launch_request) (m : machine)
    (hx : r.exts = []) :
    (∃ e, launch w r m = (.error e, m))
    ∨ (∃ rec st, rec.env = r.env.getD m.environ
        ∧ launch w r m = (.ok (⟨m.children.length, none⟩, st),
            { m with children := m.children ++ [⟨rec, false⟩] })) := by
  unfold launch
  simp only [hx, run_on_setup, run_on_exec_setup]
  split
  · exact Or.inl ⟨_, rfl⟩
  · split
    · exact Or.inl ⟨_, rfl⟩
    · split
      · exact Or.inl ⟨_, rfl⟩
      · exact Or.inr ⟨_, _, rfl, rfl⟩

/-- A `wait()` on the handle of the child appended last, not yet reaped, either fails and
leaves the machine state as it was, or marks that child reaped and changes nothing
else. -/
theorem wait_last_child (w : world) (m0 m1 : machine) (rec : spawn_record)
    (hc : m1.children = m0.children ++ [⟨rec, false⟩]) :
    (∃ e, process.wait w ⟨m0.children.length, none⟩ m1 = (.error e, m1))
    ∨ (∃ c, process.wait w ⟨m0.children.length, none⟩ m1
        = (.ok (⟨m0.children.length, some c⟩, c),
           { m1 with children := m0.children ++ [⟨rec, true⟩] })) := by
  unfold process.wait
  simp only [hc, List.getElem?_concat_length, Bool.false_eq_true, if_false]
  split
  · rename_i c _
    exact Or.inr ⟨c, by simp⟩
  · exact Or.inl ⟨_, rfl⟩
  · exact Or.inl ⟨_, rfl⟩

theorem append_singleton_ne_self {α : Type} (l : List α) (a : α) : l ≠ l ++ [a] := by
  intro h
  have := congrArg List.length h
  simp at this

/-- The machine state in which the env example ends: either the state it started in (a
failure before any child was created), or that state with one more child, whose
environment is the native environment with the directory list of the first key whose
upper case is `PATH` extended by `/foo`. -/
theorem env_main_cases (w : world) (m : machine) :
    (env.main w m).2 = m
    ∨ ∃ key v rec b, m.environ.keys[find_if is_path_key m.environ.keys]? = some key
        ∧ m.environ.get key = some v
        ∧ rec.env = m.environ.set key (v.as_vector ++ ["/foo".toList])
        ∧ (env.main w m).2 = { m with children := m.children ++ [⟨rec, b⟩] } := by
  unfold env.main
  have h0 : native_environment m = (.ok m.environ, m) := rfl
  rw [bind_ok _ _ m m m.environ h0]
  simp only
  cases hk : m.environ.keys[find_if is_path_key m.environ.keys]? with
  | none =>
    have h1 : iterator_key m.environ.keys (find_if is_path_key m.environ.keys) m
        = (.error .end_iterator_used, m) := by
      unfold iterator_key
      rw [hk]
    rw [bind_error _ _ m m _ h1]
    exact Or.inl rfl
  | some key =>
    have h1 : iterator_key m.environ.keys (find_if is_path_key m.environ.keys) m
        = (.ok key, m) := by
      unfold iterator_key
      rw [hk]
    obtain ⟨hmem, -⟩ := find_if_spec _ _ _ hk
    obtain ⟨v, hv⟩ := lookup_of_mem_keys key m.environ.vars hmem
    have h2 : m.environ.get_or_fail key m = (.ok v, m) := by
      unfold environment.get_or_fail environment.get
      rw [hv]
    rw [bind_ok _ _ m m _ h1, bind_ok _ _ m m _ h2, bind_ok _ _ m m _ h1]
    generalize hE : m.environ.set key (v.as_vector ++ ["/foo".toList]) = my_env
    cases hfe : my_env.find_executable w "test.exe".toList with
    | none =>
      have h3 : my_env.find_executable_or_fail w "test.exe".toList m
          = (.error .not_found, m) := by
        unfold environment.find_executable_or_fail
        rw [hfe]
      rw [bind_error _ _ m m _ h3]
      exact Or.inl rfl
    | some exe =>
      have h3 : my_env.find_executable_or_fail w "test.exe".toList m = (.ok exe, m) := by
        unfold environment.find_executable_or_fail
        rw [hfe]
      rw [bind_ok _ _ m m _ h3]
      rcases launch_no_extension w { exe := exe, env := some my_env } m rfl with
        ⟨e, hl⟩ | ⟨rec, st, hrec, hl⟩
      · rw [bind_error _ _ m m _ hl]
        exact Or.inl rfl
      · rw [bind_ok _ _ _ _ _ hl]
        simp only
        rcases wait_last_child w m { m with children := m.children ++ [⟨rec, false⟩] } rec rfl
          with ⟨e, hw⟩ | ⟨c, hw⟩
        · rw [bind_error _ _ _ _ _ hw]
          exact Or.inr ⟨key, v, rec, false, rfl, hv, hrec.trans hE.symm, rfl⟩
        · rw [bind_ok _ _ _ _ _ hw]
          exact Or.inr ⟨key, v, rec, true, rfl, hv, hrec.trans hE.symm, rfl⟩

/-- Whenever the env example has created a child (the process table ends as the initial
table followed by one child `ch`), the environment of that child is the native one with
the directory list of the first key whose upper case is `PATH` extended by `/foo`. -/
theorem env_child_of_created (w : world) (m : machine) (ch : child)
    (hch : (env.main w m).2.children = m.children ++ [ch]) :
    ∃ key v, m.environ.keys[find_if is_path_key m.environ.keys]? = some key
      ∧ m.environ.get key = some v
      ∧ ch.record.env = env_child_snapshot m key v := by
  rcases env_main_cases w m with h | ⟨key, v, rec, b, hk, hv, hrec, h⟩
  · rw [h] at hch
    exact absurd hch (append_singleton_ne_self _ _)
  · rw [h] at hch
    simp only [List.append_cancel_left_eq, List.cons.injEq, and_true] at hch
    subst hch
    exact ⟨key, v, hk, hv, hrec⟩

/-- The construction of the env example, under the conditions that make it succeed,
appends the child with the snapshot handed over and returns a Running handle on it. -/
theorem launch_env_child (w : world) (m : machine) (snapshot : environment)
    (exe path : std_string) (hres : resolve w snapshot exe = some path)
    (hsp : w.spawn_errno path = none) :
    launch w { exe := exe, env := some snapshot } m
      = (.ok (⟨m.children.length, none⟩, ipstream.unbound),
         { m with children := m.children ++ [⟨env_child_record m snapshot path, false⟩] }) := by
  unfold launch
  simp only [Option.getD_some, hres, run_on_setup, hsp, run_on_exec_setup]
  rfl

/-- C5: in the env example, when the native environment has a key whose upper case is
`PATH` (`key` is the first such key, the one `find_if` selects, and `v` its native value),
`test.exe` is found through the extended snapshot, the path found resolves and process
creation succeeds, then a child is created and the snapshot handed to it is the native
environment with one variable changed: its value for `key` is the directory list of `v`
followed by `/foo` as last element, every other variable has its native value, and the
keys are the native ones in the native order.  The child is appended to the process
table with exactly these parameters, `main` ends as the child's fate decides (its exit
code once reaped), and the parent's own environment is the native one at the end, which
differs from the child's in the value of `key`. -/
theorem env_snapshot_frame (w : world) (m : machine) (key : std_string) (v : env_value)
    (exe path : std_string)
    (hk : m.environ.keys[find_if is_path_key m.environ.keys]? = some key)
    (hv : m.environ.get key = some v)
    (hfe : (env_child_snapshot m key v).find_executable w "test.exe".toList = some exe)
    (hres : resolve w (env_child_snapshot m key v) exe = some path)
    (hsp : w.spawn_errno path = none) :
    env.main w m
      = (match (w.behaviour (env_child_record m (env_child_snapshot m key v) path)).fate with
         | .exits c =>
           (.ok c, { m with children := m.children ++
              [⟨env_child_record m (env_child_snapshot m key v) path, true⟩] })
         | .hangs =>
           (.error .no_return, { m with children := m.children ++
              [⟨env_child_record m (env_child_snapshot m key v) path, false⟩] })
         | .unreapable errno =>
           (.error (.observation_error errno), { m with children := m.children ++
              [⟨env_child_record m (env_child_snapshot m key v) path, false⟩] }))
    ∧ (∃ reaped, (env.main w m).2.children = m.children ++
        [⟨env_child_record m (env_child_snapshot m key v) path, reaped⟩])
    ∧ (env_child_record m (env_child_snapshot m key v) path).env.get key
        = some ⟨v.as_vector ++ ["/foo".toList]⟩
    ∧ (∀ k, k ≠ key →
        (env_child_record m (env_child_snapshot m key v) path).env.get k = m.environ.get k)
    ∧ (env_child_record m (env_child_snapshot m key v) path).env.keys = m.environ.keys
    ∧ is_path_key key = true
    ∧ (env.main w m).2.environ = m.environ
    ∧ (env.main w m).2.environ.get key
        ≠ (env_child_record m (env_child_snapshot m key v) path).env.get key := by
  obtain ⟨hmem, hpk⟩ := find_if_spec _ _ _ hk
  have hget : (env_child_snapshot m key v).get key = some ⟨v.as_vector ++ ["/foo".toList]⟩ :=
    lookup_set_binding_self _ _ _
  have hmain : env.main w m
      = (match (w.behaviour (env_child_record m (env_child_snapshot m key v) path)).fate with
         | .exits c =>
           (.ok c, { m with children := m.children ++
              [⟨env_child_record m (env_child_snapshot m key v) path, true⟩] })
         | .hangs =>
           (.error .no_return, { m with children := m.children ++
              [⟨env_child_record m (env_child_snapshot m key v) path, false⟩] })
         | .unreapable errno =>
           (.error (.observation_error errno), { m with children := m.children ++
              [⟨env_child_record m (env_child_snapshot m key v) path, false⟩] })) := by
    unfold env.main
    have h0 : native_environment m = (.ok m.environ, m) := rfl
    have h1 : iterator_key m.environ.keys (find_if is_path_key m.environ.keys) m
        = (.ok key, m) := by
      unfold iterator_key
      rw [hk]
    have h2 : m.environ.get_or_fail key m = (.ok v, m) := by
      unfold environment.get_or_fail
      rw [hv]
    have h3 : (env_child_snapshot m key v).find_executable_or_fail w "test.exe".toList m
        = (.ok exe, m) := by
      unfold environment.find_executable_or_fail
      rw [hfe]
    rw [bind_ok _ _ m m m.environ h0]
    simp only
    rw [bind_ok _ _ m m _ h1, bind_ok _ _ m m _ h2, bind_ok _ _ m m _ h1]
    show (environment.find_executable_or_fail w (env_child_snapshot m key v)
      "test.exe".toList >>= _) m = _
    rw [bind_ok _ _ m m _ h3]
    refine (bind_ok _ _ _ _ _
      (launch_env_child w m (env_child_snapshot m key v) exe path hres hsp)).trans ?_
    simp only
    rw [bind_run]
    unfold process.wait
    simp only [List.getElem?_concat_length, Bool.false_eq_true, if_false]
    cases (w.behaviour (env_child_record m (env_child_snapshot m key v) path)).fate with
    | exits c => simp [process.exit_code]
    | hangs => rfl
    | unreapable errno => rfl
  refine ⟨hmain, ?_, hget, ?_, ?_, hpk, ?_, ?_⟩
  · rw [hmain]
    cases (w.behaviour (env_child_record m (env_child_snapshot m key v) path)).fate with
    | exits c => exact ⟨true, rfl⟩
    | hangs => exact ⟨false, rfl⟩
    | unreapable errno => exact ⟨false, rfl⟩
  · intro k hne
    exact lookup_set_binding_other _ _ _ _ hne
  · exact keys_set_binding _ _ _ hmem
  · rw [hmain]
    cases (w.behaviour (env_child_record m (env_child_snapshot m key v) path)).fate <;> rfl
  · have henv : (env.main w m).2.environ = m.environ := by
      rw [hmain]
      cases (w.behaviour (env_child_record m (env_child_snapshot m key v) path)).fate <;> rfl
    rw [henv, hv]
    show some v ≠ (env_child_snapshot m key v).get key
    rw [hget]
    intro h
    have hlen := congrArg (fun o => (o.map (fun x => x.entries.length)).getD 0) h
    simp [env_value.as_vector] at hlen

/-- The instance of `env_snapshot_frame` in the sample world, where the selected key is
`PATH` with native value `/bin` and `test.exe` is found as `/bin/test.exe`: the child is
created with `HOME` unchanged and `PATH` equal to `/bin` followed by `/foo`, `main`
returns the child's exit code 3, and the parent's environment still has `PATH` equal to
`/bin` alone. -/
theorem env_snapshot_frame_witness :
    sample_machine.environ.keys[find_if is_path_key sample_machine.environ.keys]?
      = some "PATH".toList
    ∧ env.main sample_world sample_machine
      = (.ok 3, { sample_machine with children :=
          [⟨{ exe := "/bin/test.exe".toList, argv := ["/bin/test.exe".toList],
              env := ⟨[("HOME".toList, ⟨["/root".toList]⟩),
                       ("PATH".toList, ⟨["/bin".toList, "/foo".toList]⟩)]⟩,
              cwd := "/bin".toList, root := "/".toList, startup_info := STARTUPINFO.zero,
              stdout_piped := false }, true⟩] })
    ∧ (env.main sample_world sample_machine).2.environ
      = ⟨[("HOME".toList, ⟨["/root".toList]⟩), ("PATH".toList, ⟨["/bin".toList]⟩)]⟩ :=
  have h := env_snapshot_frame sample_world sample_machine "PATH".toList ⟨["/bin".toList]⟩
    "/bin/test.exe".toList "/bin/test.exe".toList rfl rfl rfl rfl rfl
  ⟨rfl, h.1, h.2.2.2.2.2.2.1⟩

/-- When no key of the native environment has upper case `PATH`, `find_if` returns the end
iterator and the env example uses it as a key. -/
theorem env_main_no_path_key (w : world) (m : machine)
    (h : ∀ k ∈ m.environ.keys, is_path_key k = false) :
    find_if is_path_key m.environ.keys = m.environ.keys.length
    ∧ env.main w m = (.error .end_iterator_used, m) := by
  have hf := find_if_end is_path_key m.environ.keys h
  refine ⟨hf, ?_⟩
  unfold env.main
  have h0 : native_environment m = (.ok m.environ, m) := rfl
  rw [bind_ok _ _ m m m.environ h0]
  have h1 : iterator_key m.environ.keys (find_if is_path_key m.environ.keys) m
      = (.error .end_iterator_used, m) := by
    unfold iterator_key
    rw [hf]
    simp
  rw [bind_error _ _ m m _ h1]

/-- C8, the code at a failing input: on a native environment whose only variable is `HOME`
no key has upper case `PATH`, the `find_if` search of the env example returns the end
iterator, and `main` passes it to `get` as a key: the program ends in the use of an end
iterator, before any child is created. -/
theorem env_main_without_path :
    (∀ k ∈ machine_without_path.environ.keys, to_upper k ≠ "PATH".toList)
    ∧ find_if is_path_key machine_without_path.environ.keys
        = machine_without_path.environ.keys.length
    ∧ env.main sample_world machine_without_path
        = (.error .end_iterator_used, machine_without_path) :=
  ⟨by decide, rfl, rfl⟩

/-- The hook `chroot::on_exec_setup` returns normally in every world, whether `::chroot`
succeeds or fails; the root directory changes only when it succeeds. -/
theorem chroot_hook_never_raises (self : posix.chroot) (w : world)
    (l : Launcher launch_params) (ctx : child_ctx) :
    self.on_exec_setup w l ctx
      = .ok (l, if w.may_chroot self.root_to then { ctx with root := self.root_to } else ctx) := by
  unfold posix.chroot.on_exec_setup sys_chroot
  split <;> rfl

/-- C6, the code at a failing input: in the sample world `::chroot` fails (it returns -1
and changes nothing), yet the hook of the posix example returns normally with the child's
state unchanged, and `main` launches `./test`, whose root directory is `/` and not
`/new/root/directory/`, waits for it and returns its exit code: no Extension Error is
reported.  In no world at all does the hook raise an error. -/
theorem posix_chroot_failure_ignored :
    sys_chroot sample_world ⟨"/".toList, "/bin".toList⟩ "/new/root/directory/".toList
      = (-1, ⟨"/".toList, "/bin".toList⟩)
    ∧ (∀ (l : Launcher launch_params) (ctx : child_ctx),
        posix.chroot.on_exec_setup ⟨"/new/root/directory/".toList⟩ sample_world l ctx
          = .ok (l, ctx))
    ∧ posix.main sample_world sample_machine
      = (.ok 3, { sample_machine with children :=
          [⟨{ exe := "/bin/./test".toList, argv := ["/bin/./test".toList],
              env := sample_machine.environ, cwd := "/bin".toList, root := "/".toList,
              startup_info := STARTUPINFO.zero, stdout_piped := false }, true⟩] })
    ∧ (∀ (self : posix.chroot) (w : world) (l : Launcher launch_params) (ctx : child_ctx)
        (ec : Nat), self.on_exec_setup w l ctx ≠ .error ec) :=
  ⟨rfl, fun _ _ => rfl, rfl, fun self w l ctx ec h => by
    rw [chroot_hook_never_raises] at h
    cases h⟩

/-! ### C7: asynchronous wait -/

theorem async_inv_init (code : Int) : async_inv code .init := by
  simp [async_inv, async_state.init]

theorem async_inv_step (code : Int) (s : async_state) (e : async_event)
    (h : async_inv code s) : async_inv code (async_step code s e) := by
  obtain ⟨hp, hr, hq, hn, hs⟩ := h
  cases e with
  | async_wait =>
    unfold async_step
    cases hex : s.exited with
    | none =>
      obtain ⟨hq0, hr0⟩ := hn hex
      simp only [async_inv, hex]
      refine ⟨?_, hr, hq, fun _ => ⟨hq0, hr0⟩, by simp⟩
      rw [List.range_succ, ← List.append_assoc, ← List.append_assoc]
      rw [List.append_assoc (List.map Prod.fst s.resolved)]
      exact List.Perm.append_right _ hp
    | some c =>
      obtain ⟨hc, hpend⟩ := hs c hex
      simp only [async_inv, hex]
      refine ⟨?_, hr, ?_, by simp, ?_⟩
      · rw [hpend] at hp ⊢
        simp only [List.map_append, List.map_cons, List.map_nil, List.append_nil] at hp ⊢
        rw [List.range_succ, ← List.append_assoc]
        exact List.Perm.append_right _ hp
      · intro x hx
        simp only [List.mem_append, List.mem_singleton] at hx
        rcases hx with hx | hx
        · exact hq x hx
        · rw [hx]
          exact hc
      · intro c1 hc1
        simp only [Option.some.injEq] at hc1
        exact ⟨hc1 ▸ hc, hpend⟩
  | child_exit =>
    unfold async_step
    cases hex : s.exited with
    | none =>
      obtain ⟨hq0, hr0⟩ := hn hex
      simp only [async_inv]
      refine ⟨?_, hr, ?_, by simp, ?_⟩
      · simpa [Function.comp_def] using hp
      · intro x hx
        simp only [List.mem_append, List.mem_map] at hx
        rcases hx with hx | ⟨i, _, hi⟩
        · exact hq x hx
        · rw [← hi]
      · intro c1 hc1
        simp only [Option.some.injEq] at hc1
        exact ⟨hc1.symm, trivial⟩
    | some c =>
      exact ⟨hp, hr, hq, hn, hs⟩
  | run_one =>
    unfold async_step
    cases hqq : s.queue with
    | nil => exact ⟨hp, hr, hq, hn, hs⟩
    | cons x rest =>
      simp only [async_inv]
      rw [hqq] at hp hq
      refine ⟨?_, ?_, ?_, ?_, hs⟩
      · simpa using hp
      · intro y hy
        simp only [List.mem_append, List.mem_singleton] at hy
        rcases hy with hy | hy
        · exact hr y hy
        · rw [hy]
          exact hq x (by simp)
      · intro y hy
        exact hq y (by simp [hy])
      · intro hex
        have := (hn hex).1
        rw [hqq] at this
        simp at this

theorem async_inv_run (code : Int) (s : async_state) (es : List async_event)
    (h : async_inv code s) : async_inv code (async_run code s es) := by
  induction es generalizing s with
  | nil => exact h
  | cons e es ih => exact ih _ (async_inv_step code s e h)

theorem registered_run (code : Int) (s : async_state) (es : List async_event) :
    (async_run code s es).registered = s.registered + es.count .async_wait := by
  induction es generalizing s with
  | nil => rfl
  | cons e es ih =>
    show (async_run code (async_step code s e) es).registered = _
    rw [ih]
    cases e with
    | async_wait =>
      unfold async_step
      cases s.exited <;> simp <;> omega
    | child_exit =>
      unfold async_step
      cases s.exited <;> simp
    | run_one =>
      unfold async_step
      cases s.queue <;> simp

theorem drain_eq (code : Int) (s : async_state) :
    drain code s = { s with queue := [], resolved := s.resolved ++ s.queue } := by
  unfold drain
  generalize hq : s.queue = q
  induction q generalizing s with
  | nil =>
    simp [async_run]
    cases s
    simp_all
  | cons x rest ih =>
    simp only [List.length_cons, List.replicate_succ, async_run, List.foldl_cons]
    have hstep : async_step code s .run_one
        = { s with queue := rest, resolved := s.resolved ++ [x] } := by
      unfold async_step
      rw [hq]
    rw [hstep]
    have := ih { s with queue := rest, resolved := s.resolved ++ [x] } rfl
    simp only [async_run] at this
    rw [this]
    simp


theorem async_inv_executor_run (code : Int) (s : async_state) (h : async_inv code s) :
    async_inv code (executor_run code s) := by
  unfold executor_run
  have h1 : async_inv code (drain code s) := async_inv_run code s _ h
  simp only
  split
  · exact h1
  · exact async_inv_run code _ _ (async_inv_step code _ _ h1)

theorem executor_run_idle (code : Int) (s : async_state) (h : async_inv code s) :
    (executor_run code s).queue = [] ∧ (executor_run code s).pending = []
    ∧ (executor_run code s).registered = s.registered := by
  unfold executor_run
  simp only
  split
  · rename_i hp
    rw [drain_eq] at hp ⊢
    simp only [List.isEmpty_iff] at hp
    exact ⟨rfl, hp, rfl⟩
  · rename_i hp
    rw [drain_eq] at hp
    simp only [List.isEmpty_iff] at hp
    have hex : s.exited = none := by
      cases hs : s.exited with
      | none => rfl
      | some c => exact absurd (h.2.2.2.2 c hs).2 hp
    rw [drain_eq, drain_eq]
    simp [async_step, hex]

theorem exited_none_of_no_exit (code : Int) (s : async_state) (es : List async_event)
    (hs : s.exited = none) (he : async_event.child_exit ∉ es) :
    (async_run code s es).exited = none := by
  induction es generalizing s with
  | nil => exact hs
  | cons e es ih =>
    simp only [List.mem_cons, not_or] at he
    apply ih _ _ he.2
    cases e with
    | async_wait => simp [async_step, hs]
    | child_exit => exact absurd rfl he.1
    | run_one =>
      unfold async_step
      cases s.queue <;> simp [hs]

theorem registrations_only (code : Int) (n : Nat) :
    async_run code .init (List.replicate n .async_wait)
      = { exited := none, pending := List.range n, queue := [], resolved := [],
          registered := n } := by
  induction n with
  | zero => rfl
  | succ k ih =>
    rw [List.replicate_succ']
    unfold async_run at ih ⊢
    rw [List.foldl_append, ih]
    simp [async_step, List.range_succ]

/-- C7: for a child exiting with `code` and every sequence `es` of events on one handle and
one executor (registrations by `async_wait`, the termination report, single dispatches
of the executor, in any order and number): a registration that is resolved is resolved
with `code` and only after the termination has been reported, so nothing is resolved by
a sequence without the termination report; no registration is resolved twice; once the
executor's run loop has been driven to completion, the resolved registrations are exactly
the `N` registrations made in `es`, numbered `0 .. N-1`, each once, all with `code`; and
in the shape of the async_io example, `n` registrations followed by the run loop, they
are resolved in registration order, and the value the example returns from
`exec_future.get()` is `code`. -/
theorem async_wait_resolves_once (code : Int) (es : List async_event) :
    (∀ x ∈ (async_run code .init es).resolved,
        x.2 = code ∧ (async_run code .init es).exited = some code)
    ∧ (async_event.child_exit ∉ es → (async_run code .init es).resolved = [])
    ∧ ((async_run code .init es).resolved.map Prod.fst).Nodup
    ∧ ((executor_run code (async_run code .init es)).resolved.map Prod.fst).Perm
        (List.range (es.count .async_wait))
    ∧ (∀ x ∈ (executor_run code (async_run code .init es)).resolved, x.2 = code)
    ∧ (∀ n : Nat,
        (executor_run code (async_run code .init (List.replicate n .async_wait))).resolved
          = (List.range n).map (fun i => (i, code)))
    ∧ async_io.wait_part code = some code := by
  have hi := async_inv_run code .init es (async_inv_init code)
  have hr := registered_run code .init es
  have hx := async_inv_executor_run code _ hi
  obtain ⟨hq, hp, hreg⟩ := executor_run_idle code _ hi
  refine ⟨?_, ?_, ?_, ?_, hx.2.1, ?_, ?_⟩
  rotate_right
  · simp [async_io.wait_part, future_get, executor_run, drain_eq, async_step,
      async_state.init, List.lookup]
  · intro x hxm
    refine ⟨hi.2.1 x hxm, ?_⟩
    cases hs : (async_run code .init es).exited with
    | none =>
      have := (hi.2.2.2.1 hs).2
      rw [this] at hxm
      simp at hxm
    | some c => rw [(hi.2.2.2.2 c hs).1]
  · intro hne
    exact (hi.2.2.2.1 (exited_none_of_no_exit code .init es rfl hne)).2
  · have hnd : (List.range (async_run code .init es).registered).Nodup := List.nodup_range _
    have := (hi.1.nodup_iff).mpr hnd
    exact (List.nodup_append.mp this).1
  · have := hx.1
    rw [hq, hp, hreg, hr] at this
    simpa [async_state.init] using this
  · intro n
    rw [registrations_only]
    unfold executor_run
    simp only [drain_eq]
    cases n with
    | zero => rfl
    | succ k => simp [async_step, drain_eq]

/-- The instance of `async_wait_resolves_once` for exit code 7 and the schedule: two
registrations, a dispatch before the child exits, the termination report, a third
registration; nothing is resolved by the schedule itself, and the run loop then resolves
the registrations 0, 1 and 2, each once, with 7. -/
theorem async_wait_resolves_once_witness :
    (async_run 7 .init [.async_wait, .async_wait, .run_one, .child_exit, .async_wait]).resolved
      = []
    ∧ (executor_run 7
        (async_run 7 .init [.async_wait, .async_wait, .run_one, .child_exit, .async_wait])
      ).resolved = [(0, 7), (1, 7), (2, 7)]
    ∧ (executor_run 7 (async_run 7 .init (List.replicate 2 .async_wait))).resolved
      = [(0, 7), (1, 7)] :=
  ⟨rfl, rfl,
   (async_wait_resolves_once 7 [.async_wait, .async_wait, .run_one, .child_exit, .async_wait]
     ).2.2.2.2.2.1 2⟩

end liaw
